import Mathlib

/-!
# docker-unit (l0rd/cUnit): test weaving and build dispatch

A shallow embedding of `build/tester.go`, `build/builder.go` and
`build/commands/command.go`, followed by the properties of the weaving engine
(`Inject`), the assertion compiler (`Assert2Ephemeral`), the dispatcher
(`Builder.dispatch`: statistics, position check, ephemeral directives) and the
post-build step of `Builder.Run`.

Conventions of the embedding.

* A Go `string` is a Lean `String`; `strings.HasPrefix` and `strings.Join` are
  defined on the character lists, so that they evaluate inside the kernel.
* `strings.ToUpper` is Unicode aware in Go.  Every definition that uppercases
  takes the uppercasing function as an argument, so the theorems hold for the
  real one; `asciiToUpper` (which agrees with it on ASCII text) is used to
  evaluate concrete ASCII inputs.
* A Go function returning `(T, error)` becomes a function into `Except Err T`;
  the `nil` result that accompanies an error is the absence of a value.
* A `*parser.Command` is modelled by the `Command` value it points to.
* Go `int` counters are `Nat`: they start at zero and grow by one per
  dispatched directive, far from the 64-bit range.
-/

namespace DockerUnit

/-! ## build/commands/command.go -/

namespace commands

def Add : String := "ADD"
def After : String := "@AFTER"
def AfterRun : String := "@AFTER_RUN"
def AssertTrue : String := "ASSERT_TRUE"
def AssertFalse : String := "ASSERT_FALSE"
def Before : String := "@BEFORE"
def Cmd : String := "CMD"
def Copy : String := "COPY"
def Entrypoint : String := "ENTRYPOINT"
def Ephemeral : String := "EPHEMERAL"
def Env : String := "ENV"
def Expose : String := "EXPOSE"
def Extract : String := "EXTRACT"
def From : String := "FROM"
def Label : String := "LABEL"
def Maintainer : String := "MAINTAINER"
def Onbuild : String := "ONBUILD"
def Run : String := "RUN"
def User : String := "USER"
def Volume : String := "VOLUME"
def Workdir : String := "WORKDIR"

/-- The key set of `FilesystemModifierCommands`. -/
def FilesystemModifierCommands : List String := [Add, Copy, Extract, Run]

/-- The key set of `ReplaceEnvAllowed`. -/
def ReplaceEnvAllowed : List String :=
  [Add, Copy, Env, Expose, Extract, Label, User, Volume, Workdir]

/-- The key set of `NewTestBlock`. -/
def NewTestBlock : List String := [AfterRun, After, Before]

end commands

/-! ## Strings -/

/-- Uppercase one ASCII letter, leave every other character alone. -/
def asciiToUpperChar (c : Char) : Char :=
  if 'a' ≤ c ∧ c ≤ 'z' then Char.ofNat (c.toNat - 32) else c

/-- The restriction of `strings.ToUpper` to ASCII text. -/
def asciiToUpper (s : String) : String := String.mk (s.data.map asciiToUpperChar)

/-- Go `strings.HasPrefix(s, prefix)`. -/
def HasPrefix (s pre : String) : Bool := pre.data.isPrefixOf s.data

/-- Go `strings.Join(elems, sep)`. -/
def Join (elems : List String) (sep : String) : String := String.intercalate sep elems

/-! ## Data model (`parser.Command`, `TestBlock`, `TestStats`, `DockerfileTests`) -/

/-- The record `parser.Command`: the tokens of one line and its heredoc. -/
structure Command where
  Args : List String
  Heredoc : String := ""
  deriving DecidableEq, Repr

structure TestBlock where
  Position : String := ""
  DockerfileRef : String := ""
  Asserts : List Command := []
  Ephemerals : List Command := []
  deriving DecidableEq, Repr

structure TestStats where
  TotalNumberOfTests : Nat
  NumberOfTestRan : Nat
  NumberOfTestPassed : Nat
  NumberOfTestFailed : Nat
  deriving DecidableEq, Repr

structure DockerfileTests where
  testBlocks : List TestBlock
  deriving DecidableEq, Repr

/-- The errors of the package, one constructor per `fmt.Errorf` site (the
message each one carries in the source is quoted); `panicIndex` and `panicNil`
are the two run-time panics the modelled code can raise. -/
inductive Err where
  /-- Message: "Failed to convert an Assert command into an ephemeral: assert args is < 2" -/
  | assertTooShort
  /-- Message: "Asserts should start with ASSERT_TRUE or ASSERT_FALSE. Current assert starts with %s" -/
  | assertBadStart (found : String)
  /-- Message: "Condition %s accept one and only one argument" / "two and only two argument" -/
  | assertArgCount (condition : String)
  /-- Message: "Condition %s is not supported." -/
  | assertUnsupported (condition : String)
  /-- Message: "no commands found in DockerTestfile" -/
  | testfileEmpty
  /-- Message: "Tests blocks should start with a @BEFORE, @AFTER or @AFTER_RUN command" -/
  | testfileBadStart (found : String)
  /-- Message: "Found more than one before/after test block that match a command (%s)" -/
  | injectAmbiguous (cmdRef : String)
  /-- Message: "Some tests blocks could not be matched with Dockerfile instructions" -/
  | injectUnmatched
  /-- Message: "FROM must be the first Dockerfile command" -/
  | fromNotFirst
  /-- Message: "unknown command: %q" -/
  | unknownCommand (cmd : String)
  /-- An error of a collaborator returned as it is. -/
  | external (msg : String)
  /-- Message: "unable to commit container image: %s" -/
  | commitFailed (msg : String)
  /-- Message: "unable to remove container: %s" -/
  | removeFailed (msg : String)
  /-- Message: "no commands found in Dockerfile" -/
  | dockerfileEmpty
  /-- Message: "unable to create container: %s" -/
  | createFailed (msg : String)
  /-- Message: "unable to tag built image: %s" -/
  | tagFailed (msg : String)
  /-- Message: "RUN requires at least one argument" -/
  | postBuildNoArgs
  /-- Message: "unable to start container: %s" -/
  | startFailed (msg : String)
  /-- Message: "unable to exec assert in running container: %s" -/
  | execFailed (msg : String)
  /-- Message: "assert \"%s\" failed, return code: %d" -/
  | assertFailed (args : List String) (code : Int)
  /-- Message: "unable to stop/kill container: %s" -/
  | stopFailed (msg : String)
  /-- Message: "unable to inspect container: %s" (returned when removing the container fails) -/
  | removeAfterRunFailed (msg : String)
  /-- Index out of range. -/
  | panicIndex
  /-- Nil pointer dereference. -/
  | panicNil
  deriving DecidableEq, Repr

deriving instance DecidableEq for Except

/-! ## build/tester.go -/

/-- Function `isInstalledGeneric`: the shell test behind `IS_INSTALLED`. -/
def isInstalledGeneric (packagename : String) : String :=
  "command -v \"" ++ packagename ++ "\"  1>/dev/null 2>&1"

/-- Function `Assert2Ephemeral`: compile one assertion record into one probe.  `arg i`
is `command.Args[i]`, read only under the length checks of the source. -/
def Assert2Ephemeral (command : Command) : Except Err Command :=
  let arg (i : Nat) : String := command.Args.getD i ""
  let neg : Bool := arg 0 == commands.AssertFalse
  if command.Args.length < 2 then .error .assertTooShort
  else if arg 0 ≠ commands.AssertTrue ∧ arg 0 ≠ commands.AssertFalse then
    .error (.assertBadStart (arg 0))
  else if arg 1 = "USER_EXISTS" then
    if command.Args.length ≠ 3 then .error (.assertArgCount "USER_EXISTS")
    else .ok { Args := ["EPHEMERAL"] ++ ["getent", "passwd", arg 2] }
  else if arg 1 = "FILE_EXISTS" then
    if command.Args.length ≠ 3 then .error (.assertArgCount "FILE_EXISTS")
    else
      let test := "test " ++ (if neg then "! " else "") ++ ("-f " ++ arg 2)
      .ok { Args := ["EPHEMERAL"] ++ ["bash", "-c"] ++ [test] }
  else if arg 1 = "CURRENT_USER_IS" then
    if command.Args.length ≠ 3 then .error (.assertArgCount "CURRENT_USER_IS")
    else
      let test := "test " ++ (if neg then "! " else "") ++ ("$(whoami) = \"" ++ arg 2 ++ "\"")
      .ok { Args := ["EPHEMERAL"] ++ ["bash", "-c"] ++ [test] }
  else if arg 1 = "IS_INSTALLED" then
    if command.Args.length ≠ 3 then .error (.assertArgCount "IS_INSTALLED")
    else
      let test := "" ++ (if neg then "! " else "") ++ isInstalledGeneric (arg 2)
      .ok { Args := ["EPHEMERAL"] ++ ["bash", "-c"] ++ [test] }
  else if arg 1 = "FILE_CONTAINS" then
    if command.Args.length ≠ 4 then .error (.assertArgCount "FILE_CONTAINS")
    else
      let test := "grep -q " ++ (if neg then "! " else "") ++ (arg 2 ++ " " ++ arg 3)
      .ok { Args := ["EPHEMERAL"] ++ ["bash", "-c"] ++ [test] }
  else if arg 1 = "PROCESS_EXISTS" then
    if command.Args.length ≠ 3 then .error (.assertArgCount "PROCESS_EXISTS")
    else
      let test := "" ++ (if neg then "! " else "") ++ ("ps cax | grep " ++ arg 2 ++ " > /dev/null")
      .ok { Args := ["EPHEMERAL"] ++ ["sh", "-c"] ++ [test] }
  else .error (.assertUnsupported (arg 1))

/-- The loop of `newTester` (lines 60-94) from record number `i` on:
`testBlocks` and `currentTestBlock` are the two variables it updates. -/
def newTesterLoop (toUpper : String → String) :
    Nat → List Command → List TestBlock → TestBlock → Except Err (List TestBlock × TestBlock)
  | _, [], testBlocks, currentTestBlock => .ok (testBlocks, currentTestBlock)
  | i, fullcmd :: rest, testBlocks, currentTestBlock =>
    match fullcmd.Args with
    | [] => .error .panicIndex
    | name :: args =>
      let cmd := toUpper name
      if i = 0 ∧ (cmd ≠ commands.Before ∧ cmd ≠ commands.After ∧ cmd ≠ commands.AfterRun) then
        .error (.testfileBadStart cmd)
      else if cmd ∈ commands.NewTestBlock then
        let testBlocks1 :=
          if currentTestBlock.Asserts.length > 0 then testBlocks ++ [currentTestBlock]
          else testBlocks
        let fresh : TestBlock := { Position := cmd, Asserts := [], Ephemerals := [] }
        let fresh1 : TestBlock :=
          if args.length > 0 then { fresh with DockerfileRef := args.getD 0 "" } else fresh
        newTesterLoop toUpper (i + 1) rest testBlocks1 fresh1
      else
        let withAssert : TestBlock :=
          { currentTestBlock with Asserts := currentTestBlock.Asserts ++ [fullcmd] }
        match Assert2Ephemeral fullcmd with
        | .error err => .error err
        | .ok ephemerals =>
          newTesterLoop toUpper (i + 1) rest testBlocks
            { withAssert with Ephemerals := withAssert.Ephemerals ++ [ephemerals] }

/-- Function `newTester` on the records `parser.Parse` returned for the test script
(opening and parsing the file are the collaborator's part). -/
def newTester (toUpper : String → String) (cmds : List Command) : Except Err DockerfileTests :=
  if cmds.length = 0 then .error .testfileEmpty
  else
    match newTesterLoop toUpper 0 cmds [] { Asserts := [], Ephemerals := [] } with
    | .error err => .error err
    | .ok (testBlocks, currentTestBlock) =>
      .ok { testBlocks := testBlocks ++ [currentTestBlock] }

/-- Function `toDockerfileRef`: the signature of a directive. -/
def toDockerfileRef (toUpper : String → String) (command : Command) : String :=
  toUpper (Join command.Args "_")

/-- The counters and lists the inner loop of `Inject` (lines 111-122) updates. -/
structure Matched where
  foundTestBlocks : Nat
  matchedBeforeTestBlocks : List TestBlock
  matchedAfterTestBlocks : List TestBlock
  deriving DecidableEq, Repr

/-- One pass of the inner loop of `Inject` over one test block. -/
def matchBlock (cmdRef : String) (m : Matched) (testBlock : TestBlock) : Matched :=
  if HasPrefix cmdRef testBlock.DockerfileRef then
    let m1 := { m with foundTestBlocks := m.foundTestBlocks + 1 }
    let m2 :=
      if testBlock.Position = commands.Before then
        { m1 with matchedBeforeTestBlocks := m1.matchedBeforeTestBlocks ++ [testBlock] }
      else m1
    if testBlock.Position = commands.After then
      { m2 with matchedAfterTestBlocks := m2.matchedAfterTestBlocks ++ [testBlock] }
    else m2
  else m

/-- The probes `Inject` splices for a list of matched blocks: those of its
only element when `len(matched) == 1`, none otherwise. -/
def spliced (matched : List TestBlock) : List Command :=
  match matched with
  | [testBlock] => testBlock.Ephemerals
  | _ => []

/-- The outer loop of `Inject` (lines 105-141) with its two variables
`newCommands` and `foundTestBlocks`. -/
def InjectLoop (toUpper : String → String) (tests : DockerfileTests) :
    List Command → List Command → Nat → Except Err (List Command × Nat)
  | [], newCommands, foundTestBlocks => .ok (newCommands, foundTestBlocks)
  | cmd :: rest, newCommands, foundTestBlocks =>
    let cmdRef := toDockerfileRef toUpper cmd
    let m := tests.testBlocks.foldl (matchBlock cmdRef)
      { foundTestBlocks := foundTestBlocks, matchedBeforeTestBlocks := [],
        matchedAfterTestBlocks := [] }
    if m.matchedBeforeTestBlocks.length > 1 ∨ m.matchedAfterTestBlocks.length > 1 then
      .error (.injectAmbiguous cmdRef)
    else
      InjectLoop toUpper tests rest
        (newCommands ++ spliced m.matchedBeforeTestBlocks ++ [cmd]
          ++ spliced m.matchedAfterTestBlocks)
        m.foundTestBlocks

/-- Function `Inject`: weave the test blocks into the main directive stream. -/
def Inject (toUpper : String → String) (cmds : List Command) (tests : DockerfileTests) :
    Except Err (List Command) :=
  match InjectLoop toUpper tests cmds [] 0 with
  | .error err => .error err
  | .ok (newCommands, foundTestBlocks) =>
    if foundTestBlocks < tests.testBlocks.length then .error .injectUnmatched
    else .ok newCommands

/-- Function `GetTotalNumberOfTests`: the number of assertions over all blocks. -/
def GetTotalNumberOfTests (tests : DockerfileTests) : Nat :=
  tests.testBlocks.foldl (fun totalNumberOfTests testBlock =>
    totalNumberOfTests + testBlock.Asserts.length) 0

/-! ## build/builder.go -/

/-- The record `config`; the two sets and the label map are kept as lists. -/
structure config where
  Cmd : List String := []
  Entrypoint : List String := []
  Env : List String := []
  ExposedPorts : List String := []
  Labels : List (String × String) := []
  User : String := ""
  Volumes : List String := []
  WorkingDir : String := ""
  deriving DecidableEq, Repr

/-- The record `Builder`.  `client` stands for the container engine behind the
two client connections, of an arbitrary type `W`; `dockerfileTests` and
`dockerfileTestStats` are pointers, `none` when nil; paths, TLS material and
the output writer are left out. -/
structure Builder (W : Type) where
  client : W
  dockerfileTests : Option DockerfileTests := none
  dockerfileTestStats : Option TestStats := none
  repo : String := ""
  tag : String := ""
  config : config := {}
  maintainer : String := ""
  imageID : String := ""
  containerID : String := ""
  uncommitted : Bool := false
  uncommittedCommands : List String := []
  cache : List (String × String) := []

/-- The key set of `b.handlers`, as registered by `NewBuilder`. -/
def handlerNames : List String :=
  [commands.Cmd, commands.Copy, commands.Entrypoint, commands.Env, commands.Ephemeral,
   commands.Expose, commands.Extract, commands.From, commands.Label, commands.Maintainer,
   commands.Run, commands.User, commands.Volume, commands.Workdir, commands.Add,
   commands.Onbuild]

/-- What `dispatch` calls and this file does not define: two functions of the
Go library, `processShellWord`, the bodies of the registered handlers (given
the directive name they are registered under), `Builder.commit` and the
engine call `RemoveContainer`.  Each one that can change the builder returns
the builder it leaves behind together with its `error` (`none` for nil). -/
structure Engine (W : Type) where
  ToUpper : String → String
  Quote : String → String
  processShellWord : String → List String → Except String String
  handler : String → List String → String → Builder W → Builder W × Option String
  commit : Builder W → Builder W × Option String
  RemoveContainer : W → String → W × Option String

/-- Go `strings.ContainsAny(arg, "<#'\" \f\n\r\t\v\\")`. -/
def needsQuote (arg : String) : Bool :=
  arg.data.any (fun c => c ∈ ['<', '#', '\'', '"', ' ', '\x0c', '\n', '\r', '\t', '\x0b', '\\'])

/-- Function `makeCommandString`: the printable form of a step, with the
arguments quoted where needed. -/
def makeCommandString {W : Type} (E : Engine W) (cmd : String) (args : List String) : String :=
  let quotedArgs := args.map (fun arg => if needsQuote arg then E.Quote arg else arg)
  cmd ++ " " ++ Join quotedArgs " "

/-- The loop of `dispatch` that expands the arguments (lines 271-278). -/
def expandArgs {W : Type} (E : Engine W) (env : List String) :
    List String → Except String (List String)
  | [] => .ok []
  | arg :: rest =>
    match E.processShellWord arg env with
    | .error err => .error err
    | .ok arg1 =>
      match expandArgs E env rest with
      | .error err => .error err
      | .ok rest1 => .ok (arg1 :: rest1)

/-- An update of `*b.dockerfileTestStats`; `none` when the pointer is nil. -/
def updateStats {W : Type} (f : TestStats → TestStats) (b : Builder W) : Option (Builder W) :=
  match b.dockerfileTestStats with
  | none => none
  | some stats => some { b with dockerfileTestStats := some (f stats) }

/-- The end of `dispatch` (lines 318-326): remove the working container. -/
def dispatchCleanup {W : Type} (E : Engine W) (b : Builder W) : Builder W × Option Err :=
  if b.containerID ≠ "" then
    match E.RemoveContainer b.client b.containerID with
    | (client1, some err) => ({ b with client := client1 }, some (.removeFailed err))
    | (client1, none) => ({ b with client := client1, containerID := "" }, none)
  else (b, none)

/-- Lines 309-326 of `dispatch`: commit when the directive may have modified
the filesystem, then clean up. -/
def dispatchCommit {W : Type} (E : Engine W) (cmd : String) (b : Builder W) :
    Builder W × Option Err :=
  if cmd ∈ commands.FilesystemModifierCommands ∧ b.uncommitted = true then
    match E.commit b with
    | (b1, some err) => (b1, some (.commitFailed err))
    | (b1, none) => dispatchCleanup E b1
  else dispatchCleanup E b

/-- Lines 298-326 of `dispatch`: call the handler and account for its result. -/
def dispatchHandle {W : Type} (E : Engine W) (cmd : String) (args : List String)
    (heredoc : String) (b : Builder W) : Builder W × Option Err :=
  match E.handler cmd args heredoc b with
  | (b1, some err) =>
    if cmd = commands.Ephemeral then
      match updateStats (fun s => { s with NumberOfTestFailed := s.NumberOfTestFailed + 1 }) b1 with
      | none => (b1, some .panicNil)
      | some b2 => (b2, some (.external err))
    else (b1, some (.external err))
  | (b1, none) =>
    if cmd = commands.Ephemeral then
      match updateStats (fun s => { s with NumberOfTestPassed := s.NumberOfTestPassed + 1 }) b1 with
      | none => (b1, some .panicNil)
      | some b2 => dispatchCommit E cmd b2
    else dispatchCommit E cmd b1

/-- Method `Builder.dispatch`: the builder it leaves behind and the error it returns
(`none` for nil).  The step line it prints is not modelled, and the expanded
arguments are a local value (the source writes them back into the record). -/
def dispatch {W : Type} (E : Engine W) (stepNum : Nat) (command : Command) (b : Builder W) :
    Builder W × Option Err :=
  match command.Args with
  | [] => (b, some .panicIndex)
  | name :: args0 =>
    let cmd := E.ToUpper name
    if (stepNum == 0) != (cmd == commands.From) then (b, some .fromNotFirst)
    else if cmd ∉ handlerNames then (b, some (.unknownCommand cmd))
    else
      match (if cmd ∈ commands.ReplaceEnvAllowed then expandArgs E b.config.Env args0
             else .ok args0) with
      | .error err => (b, some (.external err))
      | .ok args =>
        let commandStr := makeCommandString E cmd args
        if cmd ≠ commands.Ephemeral then
          dispatchHandle E cmd args command.Heredoc
            { b with uncommitted := true,
                     uncommittedCommands := b.uncommittedCommands ++ [commandStr] }
        else
          match updateStats (fun s => { s with NumberOfTestRan := s.NumberOfTestRan + 1 })
              { b with uncommitted := false } with
          | none => ({ b with uncommitted := false }, some .panicNil)
          | some b1 => dispatchHandle E cmd args command.Heredoc b1

/-- The loop of `Builder.Run` over the merged stream (lines 215-219), from
step number `i` on: it stops at the first error. -/
def dispatchAll {W : Type} (E : Engine W) : Nat → List Command → Builder W → Builder W × Option Err
  | _, [], b => (b, none)
  | i, command :: rest, b =>
    match dispatch E i command b with
    | (b1, some err) => (b1, some err)
    | (b1, none) => dispatchAll E (i + 1) rest b1

/-- The collaborators of `Run` and of the post-build tests on top of those of
`dispatch`: the methods `probeCache`, `createContainer` (it returns the
container ID next to its error) and `setTag` of the builder, which this file
does not define, and the engine calls of `handlePostBuildTest`. -/
structure RunEngine (W : Type) extends Engine W where
  probeCache : Builder W → Builder W × Bool
  createContainer : List String → List String → Bool → Builder W → Builder W × String × Option String
  setTag : String → String → String → Builder W → Builder W × Option String
  StartContainer : W → String → W × Option String
  CreateExec : W → List String → String → W × String × Option String
  StartExec : W → String → W × Option String
  InspectExec : W → String → W × Int × Option String
  StopContainer : W → String → Nat → W × Option String

/-- Method `Builder.handlePostBuildTest`: run one probe in a container started
from the final image.  The fixed sleep and the log lines are not modelled. -/
def handlePostBuildTest {W : Type} (X : RunEngine W) (args : List String) (b : Builder W) :
    Builder W × Option Err :=
  if args.length < 1 then (b, some .postBuildNoArgs)
  else
    match X.createContainer b.config.Entrypoint b.config.Cmd true b with
    | (b1, _, some err) => (b1, some (.createFailed err))
    | (b1, containerID, none) =>
      match X.StartContainer b1.client containerID with
      | (w1, some err) => ({ b1 with client := w1 }, some (.startFailed err))
      | (w1, none) =>
        match X.CreateExec w1 args containerID with
        | (w2, _, some err) => ({ b1 with client := w2 }, some (.execFailed err))
        | (w2, execID, none) =>
          match X.StartExec w2 execID with
          | (w3, some err) => ({ b1 with client := w3 }, some (.execFailed err))
          | (w3, none) =>
            match X.InspectExec w3 execID with
            | (w4, _, some err) => ({ b1 with client := w4 }, some (.execFailed err))
            | (w4, exitCode, none) =>
              if exitCode ≠ 0 then ({ b1 with client := w4 }, some (.assertFailed args exitCode))
              else
                match X.StopContainer w4 containerID 1 with
                | (w5, some err) => ({ b1 with client := w5 }, some (.stopFailed err))
                | (w5, none) =>
                  match X.RemoveContainer w5 containerID with
                  | (w6, some err) =>
                    ({ b1 with client := w6 }, some (.removeAfterRunFailed err))
                  | (w6, none) => ({ b1 with client := w6 }, none)

/-- The inner loop of `dispatchPostBuildTests` over the probes of one block
(lines 269-273); `ephemeral.Args[1:]` panics on a record without tokens. -/
def postBuildProbes {W : Type} (X : RunEngine W) : List Command → Builder W → Builder W × Option Err
  | [], b => (b, none)
  | ephemeral :: rest, b =>
    match ephemeral.Args with
    | [] => (b, some .panicIndex)
    | _ :: args =>
      match handlePostBuildTest X args b with
      | (b1, some err) => (b1, some err)
      | (b1, none) => postBuildProbes X rest b1

/-- The outer loop of `dispatchPostBuildTests` over the test blocks
(lines 267-275). -/
def postBuildBlocks {W : Type} (X : RunEngine W) : List TestBlock → Builder W → Builder W × Option Err
  | [], b => (b, none)
  | testblock :: rest, b =>
    if testblock.Position = commands.AfterRun then
      match postBuildProbes X testblock.Ephemerals b with
      | (b1, some err) => (b1, some err)
      | (b1, none) => postBuildBlocks X rest b1
    else postBuildBlocks X rest b

/-- Method `Builder.dispatchPostBuildTests`.  It reads
`b.dockerfileTests.testBlocks` without a nil check: a nil `b.dockerfileTests`
is a nil pointer dereference. -/
def dispatchPostBuildTests {W : Type} (X : RunEngine W) (b : Builder W) : Builder W × Option Err :=
  match b.dockerfileTests with
  | none => (b, some .panicNil)
  | some tests => postBuildBlocks X tests.testBlocks b

/-- Lines 221-253 of `Run`: the trailing commit, the tag and the post-build
tests.  The line "Successfully built" it prints is not modelled. -/
def RunFinish {W : Type} (X : RunEngine W) (b : Builder W) : Builder W × Option Err :=
  let tagAndTest (b : Builder W) : Builder W × Option Err :=
    if b.repo ≠ "" then
      match X.setTag b.imageID b.repo b.tag b with
      | (b1, some err) => (b1, some (.tagFailed err))
      | (b1, none) => dispatchPostBuildTests X b1
    else dispatchPostBuildTests X b
  if b.uncommitted = true then
    match X.probeCache b with
    | (b1, true) => tagAndTest b1
    | (b1, false) =>
      match X.createContainer ["/bin/sh", "-c"] ["#(nop)"] false b1 with
      | (b2, containerID, some err) =>
        ({ b2 with containerID := containerID }, some (.createFailed err))
      | (b2, containerID, none) =>
        match X.commit { b2 with containerID := containerID } with
        | (b3, some err) => (b3, some (.commitFailed err))
        | (b3, none) => tagAndTest b3
  else tagAndTest b

/-- Method `Builder.Run` on the records `parser.Parse` returned for the
Dockerfile, and for the test script when one was found (`testfile` is `none`
when `b.dockerTestfilePath` is empty).  Opening and parsing the two files are
the collaborator's part, and the statistics it prints on return are not
modelled. -/
def Run {W : Type} (X : RunEngine W) (commands : List Command)
    (testfile : Option (List Command)) (b : Builder W) : Builder W × Option Err :=
  if commands.length = 0 then (b, some .dockerfileEmpty)
  else
    let build (commands : List Command) (b : Builder W) : Builder W × Option Err :=
      match dispatchAll X.toEngine 0 commands b with
      | (b1, some err) => (b1, some err)
      | (b1, none) => RunFinish X b1
    match testfile with
    | none => build commands b
    | some script =>
      match newTester X.ToUpper script with
      | .error err => (b, some err)
      | .ok tester =>
        match Inject X.ToUpper commands tester with
        | .error err => ({ b with dockerfileTests := some tester }, some err)
        | .ok merged =>
          build merged
            { b with dockerfileTests := some tester,
                     dockerfileTestStats := some
                       { TotalNumberOfTests := GetTotalNumberOfTests tester,
                         NumberOfTestRan := 0, NumberOfTestPassed := 0,
                         NumberOfTestFailed := 0 } }

/-! ## Specification side of the weaving engine -/

/-- The blocks anchored at `position` whose target signature is a prefix of
the signature `cmdRef`, in the order of the test specification. -/
def matching (position cmdRef : String) (tests : DockerfileTests) : List TestBlock :=
  tests.testBlocks.filter
    (fun tb => HasPrefix cmdRef tb.DockerfileRef && decide (tb.Position = position))

/-- The first block anchored at `position` whose target signature is a prefix
of `cmdRef`, if any. -/
def blockFor (position cmdRef : String) (tests : DockerfileTests) : Option TestBlock :=
  tests.testBlocks.find?
    (fun tb => HasPrefix cmdRef tb.DockerfileRef && decide (tb.Position = position))

/-- The compiled probes of a block that may be absent. -/
def probesOf : Option TestBlock → List Command
  | some tb => tb.Ephemerals
  | none => []

/-- The splice the specification asks for around one directive: the probes of
the matching `BEFORE` block, the directive, the probes of the matching `AFTER`
block; the signature is the tokens joined by "_" and uppercased. -/
def spliceAround (toUpper : String → String) (tests : DockerfileTests) (cmd : Command) :
    List Command :=
  probesOf (blockFor commands.Before (toUpper (Join cmd.Args "_")) tests) ++ [cmd]
    ++ probesOf (blockFor commands.After (toUpper (Join cmd.Args "_")) tests)

/-- The merged stream of the specification: the splices in main-stream order. -/
def weave (toUpper : String → String) (tests : DockerfileTests) (cmds : List Command) :
    List Command :=
  cmds.flatMap (spliceAround toUpper tests)

/-- The number of blocks, of any position, whose target is a prefix of `cmdRef`. -/
def matchCount (cmdRef : String) (tests : DockerfileTests) : Nat :=
  tests.testBlocks.countP (fun tb => HasPrefix cmdRef tb.DockerfileRef)

/-- A directive is ambiguous when two or more `BEFORE` blocks, or two or more
`AFTER` blocks, have a target that is a prefix of its signature. -/
def ambiguous (toUpper : String → String) (tests : DockerfileTests) (cmd : Command) : Prop :=
  2 ≤ (matching commands.Before (toDockerfileRef toUpper cmd) tests).length
    ∨ 2 ≤ (matching commands.After (toDockerfileRef toUpper cmd) tests).length

instance (toUpper : String → String) (tests : DockerfileTests) (cmd : Command) :
    Decidable (ambiguous toUpper tests cmd) := by
  unfold ambiguous; infer_instance

/-- The sum of the per-directive match counts that `Inject` compares with the
number of blocks. -/
def totalMatches (toUpper : String → String) (cmds : List Command) (tests : DockerfileTests) :
    Nat :=
  (cmds.map (fun cmd => matchCount (toDockerfileRef toUpper cmd) tests)).sum

/-- The loop of `Inject` with a mark on every element it appends: `true` on a
probe taken from a test block, `false` on a directive of the main stream.
The marks are bookkeeping for stating where an element came from; erasing
them gives `InjectLoop` back (`InjectLoopMarked_erase`). -/
def InjectLoopMarked (toUpper : String → String) (tests : DockerfileTests) :
    List Command → List (Bool × Command) → Nat → Except Err (List (Bool × Command) × Nat)
  | [], newCommands, foundTestBlocks => .ok (newCommands, foundTestBlocks)
  | cmd :: rest, newCommands, foundTestBlocks =>
    let cmdRef := toDockerfileRef toUpper cmd
    let m := tests.testBlocks.foldl (matchBlock cmdRef)
      { foundTestBlocks := foundTestBlocks, matchedBeforeTestBlocks := [],
        matchedAfterTestBlocks := [] }
    if m.matchedBeforeTestBlocks.length > 1 ∨ m.matchedAfterTestBlocks.length > 1 then
      .error (.injectAmbiguous cmdRef)
    else
      InjectLoopMarked toUpper tests rest
        (newCommands ++ (spliced m.matchedBeforeTestBlocks).map (fun p => (true, p))
          ++ [(false, cmd)] ++ (spliced m.matchedAfterTestBlocks).map (fun p => (true, p)))
        m.foundTestBlocks

/-- The function `Inject` with the marks of `InjectLoopMarked`. -/
def InjectMarked (toUpper : String → String) (cmds : List Command) (tests : DockerfileTests) :
    Except Err (List (Bool × Command)) :=
  match InjectLoopMarked toUpper tests cmds [] 0 with
  | .error err => .error err
  | .ok (newCommands, foundTestBlocks) =>
    if foundTestBlocks < tests.testBlocks.length then .error .injectUnmatched
    else .ok newCommands

/-- Erase the marks of a result of `InjectLoopMarked`. -/
def eraseMarks : Except Err (List (Bool × Command) × Nat) → Except Err (List Command × Nat)
  | .error err => .error err
  | .ok (marked, found) => .ok (marked.map Prod.snd, found)

/-! ## Sample inputs -/

/-- A main stream of three directives. -/
def sampleMain : List Command :=
  [{ Args := ["FROM", "alpine"] }, { Args := ["RUN", "touch", "/a"] },
   { Args := ["RUN", "touch", "/b"] }]

/-- A test script whose two blocks each match one directive of `sampleMain`. -/
def sampleScript : List Command :=
  [{ Args := ["@AFTER", "FROM"] }, { Args := ["ASSERT_TRUE", "USER_EXISTS", "root"] },
   { Args := ["@BEFORE", "RUN_TOUCH_/B"] }, { Args := ["ASSERT_TRUE", "FILE_EXISTS", "/a"] },
   { Args := ["ASSERT_FALSE", "FILE_EXISTS", "/b"] }]

/-- The test specification `newTester` builds from `sampleScript`. -/
def sampleTests : DockerfileTests :=
  { testBlocks :=
      [{ Position := "@AFTER", DockerfileRef := "FROM",
         Asserts := [{ Args := ["ASSERT_TRUE", "USER_EXISTS", "root"] }],
         Ephemerals := [{ Args := ["EPHEMERAL", "getent", "passwd", "root"] }] },
       { Position := "@BEFORE", DockerfileRef := "RUN_TOUCH_/B",
         Asserts := [{ Args := ["ASSERT_TRUE", "FILE_EXISTS", "/a"] },
                     { Args := ["ASSERT_FALSE", "FILE_EXISTS", "/b"] }],
         Ephemerals := [{ Args := ["EPHEMERAL", "bash", "-c", "test -f /a"] },
                        { Args := ["EPHEMERAL", "bash", "-c", "test ! -f /b"] }] }] }

/-- A test script with a `@BEFORE` block for the target `NOPE`, which is a
prefix of no signature of `sampleMain`, next to a block that matches two
directives. -/
def unmatchedScript : List Command :=
  [{ Args := ["@BEFORE", "RUN"] }, { Args := ["ASSERT_TRUE", "FILE_EXISTS", "/etc/passwd"] },
   { Args := ["@BEFORE", "NOPE"] }, { Args := ["ASSERT_TRUE", "FILE_EXISTS", "/nope"] }]

/-- The test specification `newTester` builds from `unmatchedScript`. -/
def unmatchedTests : DockerfileTests :=
  { testBlocks :=
      [{ Position := "@BEFORE", DockerfileRef := "RUN",
         Asserts := [{ Args := ["ASSERT_TRUE", "FILE_EXISTS", "/etc/passwd"] }],
         Ephemerals := [{ Args := ["EPHEMERAL", "bash", "-c", "test -f /etc/passwd"] }] },
       { Position := "@BEFORE", DockerfileRef := "NOPE",
         Asserts := [{ Args := ["ASSERT_TRUE", "FILE_EXISTS", "/nope"] }],
         Ephemerals := [{ Args := ["EPHEMERAL", "bash", "-c", "test -f /nope"] }] }] }

/-- A test script with two `@BEFORE` blocks whose targets are both prefixes of
the signature `RUN_TOUCH_/A`. -/
def ambiguousScript : List Command :=
  [{ Args := ["@BEFORE", "RUN_TOUCH_/A"] }, { Args := ["ASSERT_TRUE", "USER_EXISTS", "root"] },
   { Args := ["@BEFORE", "RUN_TOUCH_/"] }, { Args := ["ASSERT_FALSE", "FILE_EXISTS", "/a"] }]

/-- The test specification `newTester` builds from `ambiguousScript`. -/
def ambiguousTests : DockerfileTests :=
  { testBlocks :=
      [{ Position := "@BEFORE", DockerfileRef := "RUN_TOUCH_/A",
         Asserts := [{ Args := ["ASSERT_TRUE", "USER_EXISTS", "root"] }],
         Ephemerals := [{ Args := ["EPHEMERAL", "getent", "passwd", "root"] }] },
       { Position := "@BEFORE", DockerfileRef := "RUN_TOUCH_/",
         Asserts := [{ Args := ["ASSERT_FALSE", "FILE_EXISTS", "/a"] }],
         Ephemerals := [{ Args := ["EPHEMERAL", "bash", "-c", "test ! -f /a"] }] }] }

/-- A test script made of one `@AFTER_RUN` block that carries a target. -/
def afterRunScript : List Command :=
  [{ Args := ["@AFTER_RUN", "NGINX"] }, { Args := ["ASSERT_TRUE", "PROCESS_EXISTS", "nginx"] }]

/-- The test specification `newTester` builds from `afterRunScript`. -/
def afterRunTests : DockerfileTests :=
  { testBlocks :=
      [{ Position := "@AFTER_RUN", DockerfileRef := "NGINX",
         Asserts := [{ Args := ["ASSERT_TRUE", "PROCESS_EXISTS", "nginx"] }],
         Ephemerals := [{ Args := ["EPHEMERAL", "sh", "-c", "ps cax | grep nginx > /dev/null"] }] }] }

/-- A test script made of two `@AFTER_RUN` blocks without a target. -/
def afterRunPlainTests : DockerfileTests :=
  { testBlocks :=
      [{ Position := "@AFTER_RUN", DockerfileRef := "",
         Asserts := [{ Args := ["ASSERT_TRUE", "PROCESS_EXISTS", "nginx"] }],
         Ephemerals := [{ Args := ["EPHEMERAL", "sh", "-c", "ps cax | grep nginx > /dev/null"] }] },
       { Position := "@AFTER_RUN", DockerfileRef := "",
         Asserts := [{ Args := ["ASSERT_TRUE", "USER_EXISTS", "www"] }],
         Ephemerals := [{ Args := ["EPHEMERAL", "getent", "passwd", "www"] }] }] }

/-! ## Specification side of the assertion compiler -/

/-- The six supported conditions. -/
def supportedConditions : List String :=
  ["USER_EXISTS", "FILE_EXISTS", "CURRENT_USER_IS", "IS_INSTALLED", "FILE_CONTAINS",
   "PROCESS_EXISTS"]

/-- The arity of a condition: 2 for `FILE_CONTAINS`, 1 for the others. -/
def arity (condition : String) : Nat :=
  if condition = "FILE_CONTAINS" then 2 else 1

/-- A malformed assertion record: its leading token is neither `ASSERT_TRUE`
nor `ASSERT_FALSE`, or its condition keyword is missing or not supported, or
the number of condition arguments (the tokens after the keyword) differs from
the arity of the condition. -/
def malformed (command : Command) : Prop :=
  (command.Args.head? ≠ some commands.AssertTrue ∧
      command.Args.head? ≠ some commands.AssertFalse) ∨
    command.Args[1]? = none ∨
    (∃ condition, command.Args[1]? = some condition ∧ condition ∉ supportedConditions) ∨
    (∃ condition, command.Args[1]? = some condition ∧
      command.Args.length - 2 ≠ arity condition)

/-! ## Specification side of the dispatcher -/

/-- A directive is ephemeral for `dispatch` when its uppercased name is
`EPHEMERAL`. -/
def isEphemeral (toUpper : String → String) (command : Command) : Bool :=
  match command.Args with
  | [] => false
  | name :: _ => toUpper name == commands.Ephemeral

/-- The handlers and `commit` leave the statistics record alone: the only
writes to it in the package are those of `dispatch`. -/
def PreservesStats {W : Type} (E : Engine W) : Prop :=
  (∀ cmd args heredoc b,
      (E.handler cmd args heredoc b).1.dockerfileTestStats = b.dockerfileTestStats) ∧
    ∀ b, (E.commit b).1.dockerfileTestStats = b.dockerfileTestStats

/-- An engine for the sample runs: every call succeeds, except the handler of
an `EPHEMERAL` directive whose command is `getent passwd nosuchuser`. -/
def sampleEngine : Engine Unit :=
  { ToUpper := asciiToUpper
    Quote := fun s => "\"" ++ s ++ "\""
    processShellWord := fun arg _ => .ok arg
    handler := fun cmd args _ b =>
      if cmd = commands.Ephemeral ∧ args = ["getent", "passwd", "nosuchuser"] then
        (b, some "exit status 2")
      else ({ b with containerID := "c0" }, none)
    commit := fun b => ({ b with uncommitted := false, imageID := "i0" }, none)
    RemoveContainer := fun w _ => (w, none) }

/-- The builder as `Run` leaves it before the first `dispatch` when a test
script declaring `total` assertions was found. -/
def sampleBuilder (total : Nat) : Builder Unit :=
  { client := (),
    dockerfileTestStats := some
      { TotalNumberOfTests := total, NumberOfTestRan := 0, NumberOfTestPassed := 0,
        NumberOfTestFailed := 0 } }

/-- A test script whose single `@AFTER` block has the target `RUN`, a prefix
of the signatures of two directives of `sampleMain`. -/
def repeatedScript : List Command :=
  [{ Args := ["@AFTER", "RUN"] }, { Args := ["ASSERT_TRUE", "FILE_EXISTS", "/etc/passwd"] }]

/-- The test specification `newTester` builds from `repeatedScript`. -/
def repeatedTests : DockerfileTests :=
  { testBlocks :=
      [{ Position := "@AFTER", DockerfileRef := "RUN",
         Asserts := [{ Args := ["ASSERT_TRUE", "FILE_EXISTS", "/etc/passwd"] }],
         Ephemerals := [{ Args := ["EPHEMERAL", "bash", "-c", "test -f /etc/passwd"] }] }] }

/-- The stream `Inject` returns for `sampleMain` and `repeatedTests`. -/
def repeatedMerged : List Command :=
  [{ Args := ["FROM", "alpine"] },
   { Args := ["RUN", "touch", "/a"] },
   { Args := ["EPHEMERAL", "bash", "-c", "test -f /etc/passwd"] },
   { Args := ["RUN", "touch", "/b"] },
   { Args := ["EPHEMERAL", "bash", "-c", "test -f /etc/passwd"] }]

/-- The stream `Inject` returns for `sampleMain` and `sampleTests`. -/
def sampleMerged : List Command :=
  [{ Args := ["FROM", "alpine"] },
   { Args := ["EPHEMERAL", "getent", "passwd", "root"] },
   { Args := ["RUN", "touch", "/a"] },
   { Args := ["EPHEMERAL", "bash", "-c", "test -f /a"] },
   { Args := ["EPHEMERAL", "bash", "-c", "test ! -f /b"] },
   { Args := ["RUN", "touch", "/b"] }]

/-- A merged stream whose probe fails on `sampleEngine`. -/
def failingMerged : List Command :=
  [{ Args := ["FROM", "alpine"] },
   { Args := ["EPHEMERAL", "getent", "passwd", "nosuchuser"] },
   { Args := ["RUN", "touch", "/a"] }]

/-! ## Sample inputs of the build -/

/-- The collaborators of `Run` for the sample runs, on top of `sampleEngine`:
every call succeeds, and a probe run in the final image exits with 0. -/
def sampleRunEngine : RunEngine Unit :=
  { sampleEngine with
    probeCache := fun b => (b, false)
    createContainer := fun _ _ _ b => (b, "c1", none)
    setTag := fun _ _ _ b => (b, none)
    StartContainer := fun w _ => (w, none)
    CreateExec := fun w _ _ => (w, "e1", none)
    StartExec := fun w _ => (w, none)
    InspectExec := fun w _ => (w, 0, none)
    StopContainer := fun w _ _ => (w, none) }

/-- The builder `NewBuilder` returns: no test specification, no statistics. -/
def freshBuilder : Builder Unit := { client := () }

/-- The main stream of the end-to-end scenario, as tokens. -/
def endToEndMain : List Command :=
  [{ Args := ["FROM", "alpine"] }, { Args := ["RUN", "apk", "add", "--no-cache", "curl"] }]

/-- The test script of the end-to-end scenario. -/
def endToEndScript : List Command :=
  [{ Args := ["@AFTER", "RUN_APK_ADD"] }, { Args := ["ASSERT_TRUE", "IS_INSTALLED", "curl"] }]

/-- The test specification `newTester` builds from `endToEndScript`. -/
def endToEndTests : DockerfileTests :=
  { testBlocks :=
      [{ Position := "@AFTER", DockerfileRef := "RUN_APK_ADD",
         Asserts := [{ Args := ["ASSERT_TRUE", "IS_INSTALLED", "curl"] }],
         Ephemerals :=
           [{ Args := ["EPHEMERAL", "bash", "-c", "command -v \"curl\"  1>/dev/null 2>&1"] }] }] }

/-- A stream with a second `FROM` at position 2, behind a probe that fails on
`sampleEngine`. -/
def preemptedStream : List Command :=
  [{ Args := ["FROM", "alpine"] },
   { Args := ["EPHEMERAL", "getent", "passwd", "nosuchuser"] },
   { Args := ["FROM", "scratch"] }]

/-- A directive is the base-image directive when its uppercased name is
`FROM`. -/
def isFrom (toUpper : String → String) (command : Command) : Bool :=
  match command.Args with
  | [] => false
  | name :: _ => toUpper name == commands.From

/-- The base-image directive is at position 0 of the stream and at no other
position. -/
def fromOnlyFirst (toUpper : String → String) (stream : List Command) : Prop :=
  ∀ i c, stream[i]? = some c → (isFrom toUpper c = true ↔ i = 0)

/-- The directive at index `i` breaks the position rule: `i == 0` differs from
`name == FROM`. -/
def misplaced (toUpper : String → String) (i : Nat) (command : Command) : Bool :=
  (i == 0) != isFrom toUpper command

/-! ## The loops of `Inject` in closed form -/

theorem before_ne_after : commands.Before ≠ commands.After := by decide

theorem foldl_matchBlock (cmdRef : String) (tbs : List TestBlock) (m : Matched) :
    tbs.foldl (matchBlock cmdRef) m =
      { foundTestBlocks :=
          m.foundTestBlocks + tbs.countP (fun tb => HasPrefix cmdRef tb.DockerfileRef),
        matchedBeforeTestBlocks := m.matchedBeforeTestBlocks ++ tbs.filter
          (fun tb => HasPrefix cmdRef tb.DockerfileRef && decide (tb.Position = commands.Before)),
        matchedAfterTestBlocks := m.matchedAfterTestBlocks ++ tbs.filter
          (fun tb => HasPrefix cmdRef tb.DockerfileRef && decide (tb.Position = commands.After)) } := by
  induction tbs generalizing m with
  | nil => simp
  | cons tb rest ih =>
    rw [List.foldl_cons, ih]
    by_cases hp : HasPrefix cmdRef tb.DockerfileRef = true
    · by_cases hb : tb.Position = commands.Before
      · have ha : tb.Position ≠ commands.After := fun h => before_ne_after (hb.symm.trans h)
        simp [matchBlock, hp, hb, before_ne_after, Nat.add_assoc, Nat.add_comm]
      · by_cases ha : tb.Position = commands.After
        · simp [matchBlock, hp, ha, Ne.symm before_ne_after, Nat.add_assoc, Nat.add_comm]
        · simp [matchBlock, hp, hb, ha, Nat.add_assoc, Nat.add_comm]
    · simp [matchBlock, hp]

theorem spliced_eq_probesOf (p : TestBlock → Bool) (tbs : List TestBlock)
    (h : (tbs.filter p).length ≤ 1) : spliced (tbs.filter p) = probesOf (tbs.find? p) := by
  induction tbs with
  | nil => simp [spliced, probesOf]
  | cons tb rest ih =>
    by_cases hp : p tb = true
    · have hnil : rest.filter p = [] := by
        simp only [List.filter_cons_of_pos hp, List.length_cons] at h
        exact List.length_eq_zero.mp (by omega)
      simp [List.filter_cons_of_pos hp, List.find?_cons_of_pos _ hp, hnil, spliced, probesOf]
    · have hp1 : p tb = false := by simpa using hp
      rw [List.filter_cons_of_neg hp, List.find?_cons_of_neg _ hp]
      rw [List.filter_cons_of_neg hp] at h
      exact ih h

/-- What `InjectLoop` returns when no directive is ambiguous. -/
theorem InjectLoop_ok (toUpper : String → String) (tests : DockerfileTests)
    (cmds : List Command) (newCommands : List Command) (found : Nat)
    (h : ∀ cmd ∈ cmds, ¬ ambiguous toUpper tests cmd) :
    InjectLoop toUpper tests cmds newCommands found =
      .ok (newCommands ++ weave toUpper tests cmds,
        found + (cmds.map (fun cmd => matchCount (toDockerfileRef toUpper cmd) tests)).sum) := by
  induction cmds generalizing newCommands found with
  | nil => simp [InjectLoop, weave]
  | cons cmd rest ih =>
    have hc := h cmd (List.mem_cons_self _ _)
    simp only [ambiguous, matching, not_or, not_le] at hc
    have hb : (tests.testBlocks.filter (fun tb => HasPrefix (toDockerfileRef toUpper cmd)
        tb.DockerfileRef && decide (tb.Position = commands.Before))).length ≤ 1 := by omega
    have ha : (tests.testBlocks.filter (fun tb => HasPrefix (toDockerfileRef toUpper cmd)
        tb.DockerfileRef && decide (tb.Position = commands.After))).length ≤ 1 := by omega
    have hguard : ¬ ((tests.testBlocks.filter (fun tb => HasPrefix (toDockerfileRef toUpper cmd)
        tb.DockerfileRef && decide (tb.Position = commands.Before))).length > 1 ∨
        (tests.testBlocks.filter (fun tb => HasPrefix (toDockerfileRef toUpper cmd)
        tb.DockerfileRef && decide (tb.Position = commands.After))).length > 1) := by omega
    rw [InjectLoop]
    simp only [foldl_matchBlock, List.nil_append, if_neg hguard]
    rw [ih _ _ (fun c hcm => h c (List.mem_cons_of_mem _ hcm))]
    rw [spliced_eq_probesOf _ _ hb, spliced_eq_probesOf _ _ ha]
    simp [weave, spliceAround, blockFor, matchCount, toDockerfileRef, Nat.add_assoc,
      List.append_assoc]

/-- When some directive is ambiguous `InjectLoop` fails, at the first one. -/
theorem InjectLoop_error (toUpper : String → String) (tests : DockerfileTests)
    (cmds : List Command) (newCommands : List Command) (found : Nat)
    (h : ∃ cmd ∈ cmds, ambiguous toUpper tests cmd) :
    ∃ cmd ∈ cmds, ambiguous toUpper tests cmd ∧
      InjectLoop toUpper tests cmds newCommands found =
        .error (.injectAmbiguous (toDockerfileRef toUpper cmd)) := by
  induction cmds generalizing newCommands found with
  | nil => simp at h
  | cons cmd rest ih =>
    by_cases hc : ambiguous toUpper tests cmd
    · refine ⟨cmd, List.mem_cons_self _ _, hc, ?_⟩
      have hguard : (tests.testBlocks.filter (fun tb => HasPrefix (toDockerfileRef toUpper cmd)
          tb.DockerfileRef && decide (tb.Position = commands.Before))).length > 1 ∨
          (tests.testBlocks.filter (fun tb => HasPrefix (toDockerfileRef toUpper cmd)
          tb.DockerfileRef && decide (tb.Position = commands.After))).length > 1 := by
        simp only [ambiguous, matching] at hc
        omega
      rw [InjectLoop]
      simp only [foldl_matchBlock, List.nil_append, if_pos hguard]
    · have hrest : ∃ c ∈ rest, ambiguous toUpper tests c := by
        obtain ⟨c, hcm, hamb⟩ := h
        rcases List.mem_cons.mp hcm with rfl | hmem
        · exact absurd hamb hc
        · exact ⟨c, hmem, hamb⟩
      have hguard : ¬ ((tests.testBlocks.filter (fun tb => HasPrefix (toDockerfileRef toUpper cmd)
          tb.DockerfileRef && decide (tb.Position = commands.Before))).length > 1 ∨
          (tests.testBlocks.filter (fun tb => HasPrefix (toDockerfileRef toUpper cmd)
          tb.DockerfileRef && decide (tb.Position = commands.After))).length > 1) := by
        simp only [ambiguous, matching, not_or, not_le] at hc
        omega
      rw [InjectLoop]
      simp only [foldl_matchBlock, List.nil_append, if_neg hguard]
      obtain ⟨c, hcm, hamb, heq⟩ := ih _ _ hrest
      exact ⟨c, List.mem_cons_of_mem _ hcm, hamb, heq⟩

/-- Without an ambiguous directive `Inject` compares the match count with the
number of blocks and returns the weave. -/
theorem Inject_of_not_ambiguous (toUpper : String → String) (cmds : List Command)
    (tests : DockerfileTests) (h : ∀ cmd ∈ cmds, ¬ ambiguous toUpper tests cmd) :
    Inject toUpper cmds tests =
      if totalMatches toUpper cmds tests < tests.testBlocks.length then .error .injectUnmatched
      else .ok (weave toUpper tests cmds) := by
  simp [Inject, InjectLoop_ok toUpper tests cmds [] 0 h, totalMatches]

/-- With an ambiguous directive `Inject` fails at the first one. -/
theorem Inject_of_ambiguous (toUpper : String → String) (cmds : List Command)
    (tests : DockerfileTests) (h : ∃ cmd ∈ cmds, ambiguous toUpper tests cmd) :
    ∃ cmd ∈ cmds, ambiguous toUpper tests cmd ∧
      Inject toUpper cmds tests = .error (.injectAmbiguous (toDockerfileRef toUpper cmd)) := by
  obtain ⟨cmd, hmem, hamb, heq⟩ := InjectLoop_error toUpper tests cmds [] 0 h
  exact ⟨cmd, hmem, hamb, by simp [Inject, heq]⟩

/-- The three facts a successful `Inject` comes with. -/
theorem Inject_ok_inv (toUpper : String → String) (cmds : List Command)
    (tests : DockerfileTests) (out : List Command) (h : Inject toUpper cmds tests = .ok out) :
    (∀ cmd ∈ cmds, ¬ ambiguous toUpper tests cmd) ∧
      tests.testBlocks.length ≤ totalMatches toUpper cmds tests ∧
      out = weave toUpper tests cmds := by
  by_cases hamb : ∃ cmd ∈ cmds, ambiguous toUpper tests cmd
  · obtain ⟨cmd, _, _, heq⟩ := Inject_of_ambiguous toUpper cmds tests hamb
    rw [heq] at h
    cases h
  · have h1 : ∀ cmd ∈ cmds, ¬ ambiguous toUpper tests cmd := fun c hc ha => hamb ⟨c, hc, ha⟩
    rw [Inject_of_not_ambiguous toUpper cmds tests h1] at h
    refine ⟨h1, ?_⟩
    split at h
    · cases h
    · rename_i hlt
      injection h with h
      exact ⟨by omega, h.symm⟩
theorem mem_spliced (p : Command) (matched : List TestBlock) (h : p ∈ spliced matched) :
    ∃ tb ∈ matched, p ∈ tb.Ephemerals := by
  match matched, h with
  | [tb], h => exact ⟨tb, List.mem_singleton.mpr rfl, h⟩
  | [], h => simp [spliced] at h
  | _ :: _ :: _, h => simp [spliced] at h

theorem InjectLoopMarked_erase (toUpper : String → String) (tests : DockerfileTests)
    (cmds : List Command) (acc : List (Bool × Command)) (found : Nat) :
    eraseMarks (InjectLoopMarked toUpper tests cmds acc found) =
      InjectLoop toUpper tests cmds (acc.map Prod.snd) found := by
  induction cmds generalizing acc found with
  | nil => simp [InjectLoopMarked, InjectLoop, eraseMarks]
  | cons cmd rest ih =>
    rw [InjectLoopMarked, InjectLoop]
    split
    · simp [eraseMarks]
    · rw [ih]
      simp [Function.comp_def]

/-- The unmarked elements of a result of `InjectLoopMarked` are those that
were there before, followed by the main stream; the marked ones come from
the test blocks. -/
theorem InjectLoopMarked_unmarked (toUpper : String → String) (tests : DockerfileTests)
    (cmds : List Command) (acc marked : List (Bool × Command)) (found n : Nat)
    (h : InjectLoopMarked toUpper tests cmds acc found = .ok (marked, n)) :
    (marked.filter (fun m => !m.1)).map Prod.snd
        = (acc.filter (fun m => !m.1)).map Prod.snd ++ cmds ∧
      ((∀ m ∈ acc, m.1 = true → ∃ tb ∈ tests.testBlocks, m.2 ∈ tb.Ephemerals) →
        ∀ m ∈ marked, m.1 = true → ∃ tb ∈ tests.testBlocks, m.2 ∈ tb.Ephemerals) := by
  induction cmds generalizing acc found with
  | nil =>
    simp only [InjectLoopMarked, Except.ok.injEq, Prod.mk.injEq] at h
    obtain ⟨rfl, _⟩ := h
    simp
  | cons cmd rest ih =>
    rw [InjectLoopMarked] at h
    split at h
    · cases h
    · obtain ⟨h1, h2⟩ := ih _ _ h
      refine ⟨?_, ?_⟩
      · rw [h1]
        simp [List.filter_append, List.filter_map, Function.comp_def]
      · intro hacc
        apply h2
        intro m hm hmark
        simp only [List.mem_append, List.mem_map, List.mem_singleton] at hm
        rcases hm with ((hm | ⟨p, hp, rfl⟩) | rfl) | ⟨p, hp, rfl⟩
        · exact hacc m hm hmark
        · obtain ⟨tb, htb, hptb⟩ := mem_spliced _ _ hp
          rw [foldl_matchBlock] at htb
          simp only [List.nil_append, List.mem_filter] at htb
          exact ⟨tb, htb.1, hptb⟩
        · simp at hmark
        · obtain ⟨tb, htb, hptb⟩ := mem_spliced _ _ hp
          rw [foldl_matchBlock] at htb
          simp only [List.nil_append, List.mem_filter] at htb
          exact ⟨tb, htb.1, hptb⟩
/-! ## Claims on the weaving engine -/

/-- C1 (the code departs from the claim): `unmatchedTests`, which `newTester`
builds from `unmatchedScript`, contains a `@BEFORE` block whose target `NOPE`
is a prefix of no signature of `sampleMain`, and `Inject` nevertheless
succeeds and returns a merged stream: the other block matches two directives,
so the match counter reaches the number of blocks. -/
theorem Inject_accepts_unmatched_block :
    newTester asciiToUpper unmatchedScript = .ok unmatchedTests ∧
    (∃ tb ∈ unmatchedTests.testBlocks, tb.Position = commands.Before ∧
      ∀ cmd ∈ sampleMain,
        HasPrefix (toDockerfileRef asciiToUpper cmd) tb.DockerfileRef = false) ∧
    Inject asciiToUpper sampleMain unmatchedTests = .ok
      [{ Args := ["FROM", "alpine"] },
       { Args := ["EPHEMERAL", "bash", "-c", "test -f /etc/passwd"] },
       { Args := ["RUN", "touch", "/a"] },
       { Args := ["EPHEMERAL", "bash", "-c", "test -f /etc/passwd"] },
       { Args := ["RUN", "touch", "/b"] }] := by
  decide

/-- C2: whenever `Inject` succeeds, its result is the concatenation, over the
directives of the main stream in order, of the compiled probes of the
`@BEFORE` block whose target is a prefix of the directive's signature (if
any), the directive itself, and the compiled probes of the matching `@AFTER`
block (if any), the signature being the tokens joined by "_" and uppercased;
and for each directive at most one block of each kind matches. -/
theorem Inject_splice_placement (toUpper : String → String) (cmds : List Command)
    (tests : DockerfileTests) (out : List Command)
    (h : Inject toUpper cmds tests = .ok out) :
    out = cmds.flatMap (fun cmd =>
        probesOf (blockFor commands.Before (toUpper (Join cmd.Args "_")) tests) ++ [cmd]
          ++ probesOf (blockFor commands.After (toUpper (Join cmd.Args "_")) tests)) ∧
      ∀ cmd ∈ cmds,
        (matching commands.Before (toUpper (Join cmd.Args "_")) tests).length ≤ 1 ∧
        (matching commands.After (toUpper (Join cmd.Args "_")) tests).length ≤ 1 := by
  obtain ⟨hamb, _, hout⟩ := Inject_ok_inv toUpper cmds tests out h
  refine ⟨hout, fun cmd hcmd => ?_⟩
  have := hamb cmd hcmd
  simp only [ambiguous, toDockerfileRef, not_or, not_le] at this
  omega

/-- Witness for C2: the weave of `sampleTests` into `sampleMain`. -/
theorem Inject_splice_placement_witness :
    Inject asciiToUpper sampleMain sampleTests = .ok
      [{ Args := ["FROM", "alpine"] },
       { Args := ["EPHEMERAL", "getent", "passwd", "root"] },
       { Args := ["RUN", "touch", "/a"] },
       { Args := ["EPHEMERAL", "bash", "-c", "test -f /a"] },
       { Args := ["EPHEMERAL", "bash", "-c", "test ! -f /b"] },
       { Args := ["RUN", "touch", "/b"] }] ∧
    [{ Args := ["FROM", "alpine"] },
       { Args := ["EPHEMERAL", "getent", "passwd", "root"] },
       { Args := ["RUN", "touch", "/a"] },
       { Args := ["EPHEMERAL", "bash", "-c", "test -f /a"] },
       { Args := ["EPHEMERAL", "bash", "-c", "test ! -f /b"] },
       { Args := ["RUN", "touch", "/b"] }] = sampleMain.flatMap (fun cmd =>
        probesOf (blockFor commands.Before (asciiToUpper (Join cmd.Args "_")) sampleTests)
          ++ [cmd]
          ++ probesOf (blockFor commands.After (asciiToUpper (Join cmd.Args "_")) sampleTests)) :=
  ⟨by decide, (Inject_splice_placement asciiToUpper sampleMain sampleTests _ (by decide)).1⟩

/-- C3: whenever `Inject` succeeds, the main stream is a subsequence of the
merged stream, and removing the injected probes (the elements the weave marks
as taken from a test block, each of them a compiled probe of some block)
from the merged stream leaves exactly the main stream: the same directives in
the same order, none dropped or duplicated. -/
theorem Inject_order_preserving (toUpper : String → String) (cmds : List Command)
    (tests : DockerfileTests) (out : List Command)
    (h : Inject toUpper cmds tests = .ok out) :
    cmds.Sublist out ∧
      ∃ marked, InjectMarked toUpper cmds tests = .ok marked ∧
        marked.map Prod.snd = out ∧
        (marked.filter (fun m => !m.1)).map Prod.snd = cmds ∧
        ∀ m ∈ marked, m.1 = true → ∃ tb ∈ tests.testBlocks, m.2 ∈ tb.Ephemerals := by
  have herase := InjectLoopMarked_erase toUpper tests cmds [] 0
  simp only [List.map_nil] at herase
  have hmarked : ∃ marked, InjectMarked toUpper cmds tests = .ok marked ∧
      marked.map Prod.snd = out ∧
      (marked.filter (fun m => !m.1)).map Prod.snd = cmds ∧
      ∀ m ∈ marked, m.1 = true → ∃ tb ∈ tests.testBlocks, m.2 ∈ tb.Ephemerals := by
    cases hloop : InjectLoopMarked toUpper tests cmds [] 0 with
    | error err =>
      rw [hloop] at herase
      simp [Inject, ← herase, eraseMarks] at h
    | ok res =>
      obtain ⟨marked, n⟩ := res
      rw [hloop] at herase
      simp only [Inject, ← herase, eraseMarks] at h
      obtain ⟨h1, h2⟩ := InjectLoopMarked_unmarked toUpper tests cmds [] marked 0 n hloop
      split at h
      · cases h
      · rename_i hlt
        injection h with h
        refine ⟨marked, ?_, h, by simpa using h1, h2 (by simp)⟩
        simp [InjectMarked, hloop, hlt]
  refine ⟨?_, hmarked⟩
  obtain ⟨marked, _, hout, hmain, _⟩ := hmarked
  rw [← hout, ← hmain]
  exact (List.filter_sublist marked).map Prod.snd

/-- Witness for C3: `sampleMain` is a subsequence of its weave with `sampleTests`. -/
theorem Inject_order_preserving_witness :
    Inject asciiToUpper sampleMain sampleTests = .ok
        [{ Args := ["FROM", "alpine"] },
         { Args := ["EPHEMERAL", "getent", "passwd", "root"] },
         { Args := ["RUN", "touch", "/a"] },
         { Args := ["EPHEMERAL", "bash", "-c", "test -f /a"] },
         { Args := ["EPHEMERAL", "bash", "-c", "test ! -f /b"] },
         { Args := ["RUN", "touch", "/b"] }] ∧
    sampleMain.Sublist
        [{ Args := ["FROM", "alpine"] },
         { Args := ["EPHEMERAL", "getent", "passwd", "root"] },
         { Args := ["RUN", "touch", "/a"] },
         { Args := ["EPHEMERAL", "bash", "-c", "test -f /a"] },
         { Args := ["EPHEMERAL", "bash", "-c", "test ! -f /b"] },
         { Args := ["RUN", "touch", "/b"] }] :=
  ⟨by decide, (Inject_order_preserving asciiToUpper sampleMain sampleTests _ (by decide)).1⟩

/-- C4: when some directive of the main stream has the targets of two or more
`@BEFORE` blocks, or of two or more `@AFTER` blocks, as prefixes of its
signature, `Inject` returns an error (the ambiguity error, for such a
directive) and no merged stream. -/
theorem Inject_ambiguous_fails (toUpper : String → String) (cmds : List Command)
    (tests : DockerfileTests)
    (h : ∃ cmd ∈ cmds,
      2 ≤ (matching commands.Before (toDockerfileRef toUpper cmd) tests).length ∨
      2 ≤ (matching commands.After (toDockerfileRef toUpper cmd) tests).length) :
    ∃ cmd ∈ cmds,
      (2 ≤ (matching commands.Before (toDockerfileRef toUpper cmd) tests).length ∨
       2 ≤ (matching commands.After (toDockerfileRef toUpper cmd) tests).length) ∧
      Inject toUpper cmds tests = .error (.injectAmbiguous (toDockerfileRef toUpper cmd)) :=
  Inject_of_ambiguous toUpper cmds tests h

/-- Witness for C4: two `@BEFORE` blocks match `RUN touch /a` in `ambiguousTests`. -/
theorem Inject_ambiguous_fails_witness :
    newTester asciiToUpper ambiguousScript = .ok ambiguousTests ∧
    ∃ cmd ∈ sampleMain,
      (2 ≤ (matching commands.Before (toDockerfileRef asciiToUpper cmd) ambiguousTests).length ∨
       2 ≤ (matching commands.After (toDockerfileRef asciiToUpper cmd) ambiguousTests).length) ∧
      Inject asciiToUpper sampleMain ambiguousTests
        = .error (.injectAmbiguous (toDockerfileRef asciiToUpper cmd)) :=
  ⟨by decide, Inject_ambiguous_fails asciiToUpper sampleMain ambiguousTests
    ⟨{ Args := ["RUN", "touch", "/a"] }, by decide, by decide⟩⟩
theorem HasPrefix_empty (s : String) : HasPrefix s "" = true := by
  simp [HasPrefix]

theorem sum_indicator_eq_countP {α : Type} (q : α → Bool) (l : List α) :
    (l.map (fun a => if q a = true then 1 else 0)).sum = l.countP q := by
  induction l with
  | nil => simp
  | cons a rest ih =>
    by_cases hq : q a = true
    · simp [hq, ih, Nat.add_comm]
    · simp [hq, ih]

/-- When every block matches some directive, the match counter of `Inject`
reaches the number of blocks. -/
theorem length_le_sum_countP (ref : Command → String) (cmds : List Command)
    (tbs : List TestBlock)
    (h : ∀ tb ∈ tbs, ∃ cmd ∈ cmds, HasPrefix (ref cmd) tb.DockerfileRef = true) :
    tbs.length ≤
      (cmds.map (fun cmd => tbs.countP (fun tb => HasPrefix (ref cmd) tb.DockerfileRef))).sum := by
  induction tbs with
  | nil => simp
  | cons tb rest ih =>
    have hrest := ih (fun t ht => h t (List.mem_cons_of_mem _ ht))
    have hsplit : (cmds.map (fun cmd =>
          (tb :: rest).countP (fun t => HasPrefix (ref cmd) t.DockerfileRef))).sum
        = (cmds.map (fun cmd => rest.countP (fun t => HasPrefix (ref cmd) t.DockerfileRef))).sum
          + (cmds.map (fun cmd =>
              if HasPrefix (ref cmd) tb.DockerfileRef = true then 1 else 0)).sum := by
      rw [← List.sum_map_add]
      congr 1
      apply List.map_congr_left
      intro cmd _
      simp [List.countP_cons]
    have hone : 1 ≤ (cmds.map (fun cmd =>
        if HasPrefix (ref cmd) tb.DockerfileRef = true then 1 else 0)).sum := by
      rw [sum_indicator_eq_countP (fun cmd => HasPrefix (ref cmd) tb.DockerfileRef)]
      exact List.countP_pos_iff.mpr (by simpa using h tb (List.mem_cons_self _ _))
    rw [hsplit, List.length_cons]
    omega

/-- A test specification without `@BEFORE` and `@AFTER` blocks weaves nothing. -/
theorem weave_of_no_anchor (toUpper : String → String) (tests : DockerfileTests)
    (cmds : List Command)
    (h : ∀ tb ∈ tests.testBlocks, tb.Position ≠ commands.Before ∧ tb.Position ≠ commands.After) :
    weave toUpper tests cmds = cmds := by
  have hnone : ∀ (position ref : String),
      position = commands.Before ∨ position = commands.After →
      blockFor position ref tests = none := by
    intro position ref hpos
    simp only [blockFor, List.find?_eq_none]
    intro tb htb
    rcases hpos with rfl | rfl
    · simp [(h tb htb).1]
    · simp [(h tb htb).2]
  induction cmds with
  | nil => simp [weave]
  | cons cmd rest ih =>
    simp only [weave, List.flatMap_cons] at ih ⊢
    rw [ih]
    simp [spliceAround, hnone _ _ (Or.inl rfl), hnone _ _ (Or.inr rfl), probesOf]

/-- C5, a counterexample to it as stated: `afterRunTests`, which `newTester`
builds from the script `@AFTER_RUN NGINX` / `ASSERT_TRUE PROCESS_EXISTS nginx`,
has only `@AFTER_RUN` blocks and `sampleMain` is not empty, yet `Inject`
fails with the coverage error, because the target `NGINX` is a prefix of no
signature. -/
theorem Inject_afterRun_target_unmatched :
    newTester asciiToUpper afterRunScript = .ok afterRunTests ∧
    sampleMain ≠ [] ∧
    (∀ tb ∈ afterRunTests.testBlocks, tb.Position = commands.AfterRun) ∧
    Inject asciiToUpper sampleMain afterRunTests = .error .injectUnmatched := by
  decide

/-- C5, amended: for a non-empty main stream and a test specification all of
whose blocks are `@AFTER_RUN` blocks that carry no target, or a target that is
a prefix of the signature of at least one directive of the main stream,
`Inject` succeeds and returns the main stream unchanged. -/
theorem Inject_afterRun_only (toUpper : String → String) (cmds : List Command)
    (tests : DockerfileTests) (hne : cmds ≠ [])
    (hpos : ∀ tb ∈ tests.testBlocks, tb.Position = commands.AfterRun)
    (htarget : ∀ tb ∈ tests.testBlocks, tb.DockerfileRef = "" ∨
      ∃ cmd ∈ cmds, HasPrefix (toDockerfileRef toUpper cmd) tb.DockerfileRef = true) :
    Inject toUpper cmds tests = .ok cmds := by
  have hanchor : ∀ tb ∈ tests.testBlocks,
      tb.Position ≠ commands.Before ∧ tb.Position ≠ commands.After := by
    intro tb htb
    rw [hpos tb htb]
    exact ⟨by decide, by decide⟩
  have hamb : ∀ cmd ∈ cmds, ¬ ambiguous toUpper tests cmd := by
    intro cmd _
    have hb : matching commands.Before (toDockerfileRef toUpper cmd) tests = [] := by
      simp only [matching, List.filter_eq_nil_iff]
      intro tb htb
      simp [(hanchor tb htb).1]
    have ha : matching commands.After (toDockerfileRef toUpper cmd) tests = [] := by
      simp only [matching, List.filter_eq_nil_iff]
      intro tb htb
      simp [(hanchor tb htb).2]
    simp [ambiguous, hb, ha]
  have hmatch : ∀ tb ∈ tests.testBlocks,
      ∃ cmd ∈ cmds, HasPrefix (toDockerfileRef toUpper cmd) tb.DockerfileRef = true := by
    intro tb htb
    rcases htarget tb htb with hempty | hsome
    · obtain ⟨cmd, hcmd⟩ := List.exists_mem_of_ne_nil cmds hne
      exact ⟨cmd, hcmd, by rw [hempty]; exact HasPrefix_empty _⟩
    · exact hsome
  have hcount : ¬ totalMatches toUpper cmds tests < tests.testBlocks.length := by
    have := length_le_sum_countP (toDockerfileRef toUpper) cmds tests.testBlocks hmatch
    simp only [totalMatches, matchCount]
    omega
  rw [Inject_of_not_ambiguous toUpper cmds tests hamb, if_neg hcount,
    weave_of_no_anchor toUpper tests cmds hanchor]

/-- Witness for the amended C5: two `@AFTER_RUN` blocks without a target. -/
theorem Inject_afterRun_only_witness :
    sampleMain ≠ [] ∧
    (∀ tb ∈ afterRunPlainTests.testBlocks, tb.Position = commands.AfterRun) ∧
    Inject asciiToUpper sampleMain afterRunPlainTests = .ok sampleMain :=
  ⟨by decide, by decide,
    Inject_afterRun_only asciiToUpper sampleMain afterRunPlainTests (by decide) (by decide)
      (by decide)⟩

/-! ## Claims on the assertion compiler -/

/-- C6 (the code departs from the claim): for `USER_EXISTS` the probe compiled
from the `ASSERT_FALSE` record is the same command as the one compiled from
the `ASSERT_TRUE` record, `getent passwd root`, without any `!`. -/
theorem Assert2Ephemeral_USER_EXISTS_not_negated :
    Assert2Ephemeral { Args := ["ASSERT_FALSE", "USER_EXISTS", "root"] }
      = .ok { Args := ["EPHEMERAL", "getent", "passwd", "root"] } ∧
    Assert2Ephemeral { Args := ["ASSERT_FALSE", "USER_EXISTS", "root"] }
      = Assert2Ephemeral { Args := ["ASSERT_TRUE", "USER_EXISTS", "root"] } := by
  decide

/-- C7 (the code departs from the claim): `ASSERT_TRUE FILE_CONTAINS root
/etc/passwd` compiles to `grep -q root /etc/passwd`, but the `ASSERT_FALSE`
probe is `grep -q ! root /etc/passwd`: the `!` stands inside the grep
invocation, after `-q`, where grep reads it as the pattern. -/
theorem Assert2Ephemeral_FILE_CONTAINS_negation_inside :
    Assert2Ephemeral { Args := ["ASSERT_TRUE", "FILE_CONTAINS", "root", "/etc/passwd"] }
      = .ok { Args := ["EPHEMERAL", "bash", "-c", "grep -q root /etc/passwd"] } ∧
    Assert2Ephemeral { Args := ["ASSERT_FALSE", "FILE_CONTAINS", "root", "/etc/passwd"] }
      = .ok { Args := ["EPHEMERAL", "bash", "-c", "grep -q ! root /etc/passwd"] } := by
  decide
/-- C10: `Assert2Ephemeral` returns an error if and only if the record is
malformed (leading token neither `ASSERT_TRUE` nor `ASSERT_FALSE`, condition
keyword missing or not one of the six, or a number of condition arguments
different from the arity); in every other case it returns one directive whose
first token is `EPHEMERAL`. -/
theorem Assert2Ephemeral_error_iff (command : Command) :
    ((∃ err, Assert2Ephemeral command = .error err) ↔ malformed command) ∧
    (malformed command ∨
      ∃ probe, Assert2Ephemeral command = .ok probe ∧ probe.Args.head? = some "EPHEMERAL") := by
  obtain ⟨args, heredoc⟩ := command
  match args with
  | [] => simp [Assert2Ephemeral, malformed]
  | [a] => simp [Assert2Ephemeral, malformed]
  | a :: c :: rest =>
    have hlen : ¬ (rest.length + 1 + 1 < 2) := by omega
    by_cases ha : a = commands.AssertTrue ∨ a = commands.AssertFalse
    · have hstart : ¬ (a ≠ commands.AssertTrue ∧ a ≠ commands.AssertFalse) := by
        rcases ha with h | h <;> simp [h]
      have hhead : ¬ (¬ a = commands.AssertTrue ∧ ¬ a = commands.AssertFalse) := hstart
      simp only [Assert2Ephemeral, malformed, List.length_cons, hlen, if_false, List.getD_cons_zero,
        List.getD_cons_succ, hstart, List.head?_cons, Option.some.injEq, ne_eq, hhead, false_or,
        List.getElem?_cons_succ, List.getElem?_cons_zero, exists_eq_left', supportedConditions,
        arity, Nat.add_sub_cancel]
      by_cases h1 : c = "USER_EXISTS"
      · subst h1
        by_cases hl : rest.length = 1 <;> simp [hl]
      by_cases h2 : c = "FILE_EXISTS"
      · subst h2
        by_cases hl : rest.length = 1 <;> simp [hl]
      by_cases h3 : c = "CURRENT_USER_IS"
      · subst h3
        by_cases hl : rest.length = 1 <;> simp [hl]
      by_cases h4 : c = "IS_INSTALLED"
      · subst h4
        by_cases hl : rest.length = 1 <;> simp [hl]
      by_cases h5 : c = "FILE_CONTAINS"
      · subst h5
        by_cases hl : rest.length = 2 <;> simp [hl]
      by_cases h6 : c = "PROCESS_EXISTS"
      · subst h6
        by_cases hl : rest.length = 1 <;> simp [hl]
      simp [h1, h2, h3, h4, h5, h6]
    · simp only [not_or] at ha
      simp [Assert2Ephemeral, malformed, ha.1, ha.2, hlen]
/-! ## The statistics kept by `dispatch` -/

theorem dispatchCleanup_stats {W : Type} (E : Engine W) (b : Builder W) :
    (dispatchCleanup E b).1.dockerfileTestStats = b.dockerfileTestStats := by
  unfold dispatchCleanup
  split
  · split <;> rfl
  · rfl

theorem dispatchCommit_stats {W : Type} (E : Engine W) (hE : PreservesStats E) (cmd : String)
    (b : Builder W) :
    (dispatchCommit E cmd b).1.dockerfileTestStats = b.dockerfileTestStats := by
  unfold dispatchCommit
  split
  · split
    · rename_i b1 err heq
      have := hE.2 b
      rw [heq] at this
      exact this
    · rename_i b1 heq
      have := hE.2 b
      rw [heq] at this
      rw [dispatchCleanup_stats]
      exact this
  · exact dispatchCleanup_stats E b

/-- The statistics after the handler has been called on a record `s`: an
ephemeral directive adds one to Failed or to Passed, any other leaves `s`. -/
theorem dispatchHandle_stats {W : Type} (E : Engine W) (hE : PreservesStats E) (cmd : String)
    (args : List String) (heredoc : String) (b : Builder W) (s : TestStats)
    (hs : b.dockerfileTestStats = some s) :
    (dispatchHandle E cmd args heredoc b).1.dockerfileTestStats =
      some (if cmd = commands.Ephemeral then
        (match (E.handler cmd args heredoc b).2 with
          | some _ => { s with NumberOfTestFailed := s.NumberOfTestFailed + 1 }
          | none => { s with NumberOfTestPassed := s.NumberOfTestPassed + 1 })
        else s) := by
  have hframe := hE.1 cmd args heredoc b
  rw [hs] at hframe
  unfold dispatchHandle
  cases hh : E.handler cmd args heredoc b with
  | mk b1 res =>
    rw [hh] at hframe
    simp only at hframe
    cases res with
    | some err =>
      by_cases hc : cmd = commands.Ephemeral
      · simp [hc, updateStats, hframe]
      · simp [hc, hframe]
    | none =>
      by_cases hc : cmd = commands.Ephemeral
      · simp [hc, updateStats, hframe, dispatchCommit_stats E hE]
      · simp [hc, hframe, dispatchCommit_stats E hE]
theorem dispatchHandle_stats_of_ne {W : Type} (E : Engine W) (hE : PreservesStats E)
    (cmd : String) (args : List String) (heredoc : String) (b : Builder W)
    (hcmd : cmd ≠ commands.Ephemeral) :
    (dispatchHandle E cmd args heredoc b).1.dockerfileTestStats = b.dockerfileTestStats := by
  have hframe := hE.1 cmd args heredoc b
  unfold dispatchHandle
  cases hh : E.handler cmd args heredoc b with
  | mk b1 res =>
    rw [hh] at hframe
    cases res with
    | some err => simpa [hcmd] using hframe
    | none => simpa [hcmd, dispatchCommit_stats E hE] using hframe

/-- A directive that is not ephemeral leaves the statistics as they are. -/
theorem dispatch_stats_of_not_ephemeral {W : Type} (E : Engine W) (hE : PreservesStats E)
    (i : Nat) (command : Command) (b : Builder W)
    (hne : isEphemeral E.ToUpper command = false) :
    (dispatch E i command b).1.dockerfileTestStats = b.dockerfileTestStats := by
  unfold dispatch
  cases hargs : command.Args with
  | nil => rfl
  | cons name args0 =>
    have hcmd : E.ToUpper name ≠ commands.Ephemeral := by
      simpa [isEphemeral, hargs] using hne
    simp only []
    split
    · rfl
    · split
      · rfl
      · split
        · rfl
        · rename_i args _
          rw [dispatchHandle_stats_of_ne E hE _ _ _ _ hcmd]

/-- An ephemeral directive at step 0 is refused by the position check. -/
theorem dispatch_ephemeral_first {W : Type} (E : Engine W) (command : Command) (b : Builder W)
    (he : isEphemeral E.ToUpper command = true) :
    dispatch E 0 command b = (b, some .fromNotFirst) := by
  unfold dispatch
  cases hargs : command.Args with
  | nil => simp [isEphemeral, hargs] at he
  | cons name args0 =>
    have hcmd : E.ToUpper name = commands.Ephemeral := by
      simpa [isEphemeral, hargs] using he
    have hfrom : commands.Ephemeral ≠ commands.From := by decide
    simp [hcmd, hfrom]

/-- An ephemeral directive at a later step reaches its handler with the
dirty flag cleared and one more test counted as run. -/
theorem dispatch_ephemeral_later {W : Type} (E : Engine W) (i : Nat) (command : Command)
    (b : Builder W) (s : TestStats) (name : String) (args : List String)
    (hargs : command.Args = name :: args) (hcmd : E.ToUpper name = commands.Ephemeral)
    (hi : i ≠ 0) (hs : b.dockerfileTestStats = some s) :
    dispatch E i command b =
      dispatchHandle E commands.Ephemeral args command.Heredoc
        { b with uncommitted := false,
                 dockerfileTestStats :=
                   some { s with NumberOfTestRan := s.NumberOfTestRan + 1 } } := by
  unfold dispatch
  have hfrom : commands.Ephemeral ≠ commands.From := by decide
  have hmem : commands.Ephemeral ∈ handlerNames := by decide
  have henv : commands.Ephemeral ∉ commands.ReplaceEnvAllowed := by decide
  simp [hargs, hcmd, hfrom, hmem, henv, hi, updateStats, hs]
/-- The three ways `dispatch` can leave a statistics record `s`: unchanged,
or, for an ephemeral directive after step 0, with one more test run and
either one more passed or one more failed. -/
theorem dispatch_stats_cases {W : Type} (E : Engine W) (hE : PreservesStats E) (i : Nat)
    (command : Command) (b : Builder W) (s : TestStats)
    (hs : b.dockerfileTestStats = some s) :
    (dispatch E i command b).1.dockerfileTestStats = some s ∨
    (isEphemeral E.ToUpper command = true ∧ i ≠ 0 ∧
      ((dispatch E i command b).1.dockerfileTestStats = some
          { s with NumberOfTestRan := s.NumberOfTestRan + 1,
                   NumberOfTestPassed := s.NumberOfTestPassed + 1 } ∨
        (dispatch E i command b).1.dockerfileTestStats = some
          { s with NumberOfTestRan := s.NumberOfTestRan + 1,
                   NumberOfTestFailed := s.NumberOfTestFailed + 1 })) := by
  by_cases he : isEphemeral E.ToUpper command = true
  · by_cases hi : i = 0
    · subst hi
      left
      rw [dispatch_ephemeral_first E command b he]
      exact hs
    · right
      refine ⟨he, hi, ?_⟩
      cases hargs : command.Args with
      | nil => simp [isEphemeral, hargs] at he
      | cons name args =>
        have hcmd : E.ToUpper name = commands.Ephemeral := by
          simpa [isEphemeral, hargs] using he
        rw [dispatch_ephemeral_later E i command b s name args hargs hcmd hi hs]
        rw [dispatchHandle_stats E hE _ _ _ _
          { s with NumberOfTestRan := s.NumberOfTestRan + 1 } rfl]
        simp only [if_true]
        split
        · right; rfl
        · left; rfl
  · left
    rw [dispatch_stats_of_not_ephemeral E hE i command b (by simpa using he)]
    exact hs

/-- The statistics after the loop of `Run` over a stream `l`. -/
theorem dispatchAll_stats {W : Type} (E : Engine W) (hE : PreservesStats E)
    (l : List Command) (i : Nat) (b : Builder W) (s : TestStats)
    (hs : b.dockerfileTestStats = some s) :
    ∃ s', (dispatchAll E i l b).1.dockerfileTestStats = some s' ∧
      s'.TotalNumberOfTests = s.TotalNumberOfTests ∧
      s.NumberOfTestRan ≤ s'.NumberOfTestRan ∧
      s'.NumberOfTestRan ≤ s.NumberOfTestRan + l.countP (isEphemeral E.ToUpper) ∧
      (s.NumberOfTestPassed + s.NumberOfTestFailed = s.NumberOfTestRan →
        s'.NumberOfTestPassed + s'.NumberOfTestFailed = s'.NumberOfTestRan) := by
  induction l generalizing i b s with
  | nil => exact ⟨s, by simpa [dispatchAll] using hs, rfl, le_refl _, by simp, id⟩
  | cons command rest ih =>
    have hstep := dispatch_stats_cases E hE i command b s hs
    unfold dispatchAll
    cases hd : dispatch E i command b with
    | mk b1 res =>
      rw [hd] at hstep
      simp only at hstep
      have key : ∃ s1, b1.dockerfileTestStats = some s1 ∧
          s1.TotalNumberOfTests = s.TotalNumberOfTests ∧
          s.NumberOfTestRan ≤ s1.NumberOfTestRan ∧
          s1.NumberOfTestRan ≤ s.NumberOfTestRan +
            [command].countP (isEphemeral E.ToUpper) ∧
          (s.NumberOfTestPassed + s.NumberOfTestFailed = s.NumberOfTestRan →
            s1.NumberOfTestPassed + s1.NumberOfTestFailed = s1.NumberOfTestRan) := by
        rcases hstep with h | ⟨he, _, h | h⟩
        · exact ⟨_, h, rfl, le_refl _, by simp, id⟩
        · exact ⟨_, h, rfl, by simp, by simp [he], fun hinv => by simp; omega⟩
        · exact ⟨_, h, rfl, by simp, by simp [he], fun hinv => by simp; omega⟩
      obtain ⟨s1, hs1, ht1, hlo1, hhi1, hinv1⟩ := key
      have hcount : (command :: rest).countP (isEphemeral E.ToUpper)
          = [command].countP (isEphemeral E.ToUpper) + rest.countP (isEphemeral E.ToUpper) := by
        rw [← List.countP_append]; rfl
      cases res with
      | some err =>
        exact ⟨s1, hs1, ht1, hlo1, by omega, hinv1⟩
      | none =>
        obtain ⟨s2, hs2, ht2, hlo2, hhi2, hinv2⟩ := ih (i + 1) b1 s1 hs1
        exact ⟨s2, hs2, by omega, by omega, by omega, fun hinv => hinv2 (hinv1 hinv)⟩
theorem dispatchHandle_ephemeral_fail {W : Type} (E : Engine W) (hE : PreservesStats E)
    (args : List String) (heredoc : String) (b : Builder W) (s : TestStats) (err : String)
    (hs : b.dockerfileTestStats = some s)
    (hfail : (E.handler commands.Ephemeral args heredoc b).2 = some err) :
    (dispatchHandle E commands.Ephemeral args heredoc b).2 = some (.external err) := by
  have hframe := hE.1 commands.Ephemeral args heredoc b
  rw [hs] at hframe
  unfold dispatchHandle
  cases hh : E.handler commands.Ephemeral args heredoc b with
  | mk b1 res =>
    rw [hh] at hframe hfail
    simp only at hframe hfail
    subst hfail
    simp [updateStats, hframe]

/-! ## Claims on the statistics -/

/-- C9: with handlers and `commit` that leave the statistics record alone,
(1) whenever `dispatch` returns, successfully or with an error, from a
record `s`, it leaves a record `s'` with the same total, no counter smaller
than in `s`, and `Passed + Failed == Ran` if that held in `s`; a directive
that is not ephemeral changes no counter; an ephemeral directive whose
handler is entered (after step 0) and fails makes `dispatch` return that
error with exactly one added to Ran and one to Failed, and one whose handler
succeeds leaves exactly one added to Ran and one to Passed;
(2) starting from all-zero counters, `Passed + Failed == Ran` holds before the
first directive and after every directive of the loop of `Run`. -/
theorem dispatch_statistics_accounting {W : Type} (E : Engine W) (hE : PreservesStats E) :
    (∀ (b : Builder W) (s : TestStats) (i : Nat) (command : Command),
      b.dockerfileTestStats = some s →
      ∃ s', (dispatch E i command b).1.dockerfileTestStats = some s' ∧
        s'.TotalNumberOfTests = s.TotalNumberOfTests ∧
        s.NumberOfTestRan ≤ s'.NumberOfTestRan ∧
        s.NumberOfTestPassed ≤ s'.NumberOfTestPassed ∧
        s.NumberOfTestFailed ≤ s'.NumberOfTestFailed ∧
        (s.NumberOfTestPassed + s.NumberOfTestFailed = s.NumberOfTestRan →
          s'.NumberOfTestPassed + s'.NumberOfTestFailed = s'.NumberOfTestRan) ∧
        (isEphemeral E.ToUpper command = false → s' = s) ∧
        (∀ name args, command.Args = name :: args → E.ToUpper name = commands.Ephemeral →
          i ≠ 0 →
          (∀ err,
            (E.handler commands.Ephemeral args command.Heredoc
              { b with uncommitted := false,
                       dockerfileTestStats :=
                         some { s with NumberOfTestRan := s.NumberOfTestRan + 1 } }).2
              = some err →
            (dispatch E i command b).2 = some (.external err) ∧
            s' = { s with NumberOfTestRan := s.NumberOfTestRan + 1,
                          NumberOfTestFailed := s.NumberOfTestFailed + 1 }) ∧
          ((E.handler commands.Ephemeral args command.Heredoc
              { b with uncommitted := false,
                       dockerfileTestStats :=
                         some { s with NumberOfTestRan := s.NumberOfTestRan + 1 } }).2
              = none →
            s' = { s with NumberOfTestRan := s.NumberOfTestRan + 1,
                          NumberOfTestPassed := s.NumberOfTestPassed + 1 }))) ∧
    (∀ (b : Builder W) (total : Nat) (cmds : List Command) (k : Nat),
      b.dockerfileTestStats = some
        { TotalNumberOfTests := total, NumberOfTestRan := 0, NumberOfTestPassed := 0,
          NumberOfTestFailed := 0 } →
      ∃ s, (dispatchAll E 0 (cmds.take k) b).1.dockerfileTestStats = some s ∧
        s.NumberOfTestPassed + s.NumberOfTestFailed = s.NumberOfTestRan) := by
  refine ⟨?_, ?_⟩
  · intro b s i command hs
    have hne := dispatch_stats_of_not_ephemeral E hE i command b
    have hlater : ∀ name args, command.Args = name :: args →
        E.ToUpper name = commands.Ephemeral → i ≠ 0 →
        (dispatch E i command b).1.dockerfileTestStats = some
          (match (E.handler commands.Ephemeral args command.Heredoc
              { b with uncommitted := false,
                       dockerfileTestStats :=
                         some { s with NumberOfTestRan := s.NumberOfTestRan + 1 } }).2 with
            | some _ => { s with NumberOfTestRan := s.NumberOfTestRan + 1,
                                 NumberOfTestFailed := s.NumberOfTestFailed + 1 }
            | none => { s with NumberOfTestRan := s.NumberOfTestRan + 1,
                               NumberOfTestPassed := s.NumberOfTestPassed + 1 }) := by
      intro name args hargs hcmd hi
      rw [dispatch_ephemeral_later E i command b s name args hargs hcmd hi hs]
      rw [dispatchHandle_stats E hE _ _ _ _
        { s with NumberOfTestRan := s.NumberOfTestRan + 1 } rfl]
      simp only [if_true]
    have hfail : ∀ name args err, command.Args = name :: args →
        E.ToUpper name = commands.Ephemeral → i ≠ 0 →
        (E.handler commands.Ephemeral args command.Heredoc
              { b with uncommitted := false,
                       dockerfileTestStats :=
                         some { s with NumberOfTestRan := s.NumberOfTestRan + 1 } }).2
              = some err →
        (dispatch E i command b).2 = some (.external err) := by
      intro name args err hargs hcmd hi hh
      rw [dispatch_ephemeral_later E i command b s name args hargs hcmd hi hs]
      exact dispatchHandle_ephemeral_fail E hE _ _ _ _ err rfl hh
    by_cases he : isEphemeral E.ToUpper command = true
    · by_cases hi : i = 0
      · subst hi
        refine ⟨s, ?_, rfl, le_refl _, le_refl _, le_refl _, id, fun _ => rfl, ?_⟩
        · rw [dispatch_ephemeral_first E command b he]
          exact hs
        · intro name args _ _ h0
          exact absurd rfl h0
      · cases hargs : command.Args with
        | nil => simp [isEphemeral, hargs] at he
        | cons name args =>
          have hcmd : E.ToUpper name = commands.Ephemeral := by
            simpa [isEphemeral, hargs] using he
          have h2 := hlater name args hargs hcmd hi
          cases hh : (E.handler commands.Ephemeral args command.Heredoc
              { b with uncommitted := false,
                       dockerfileTestStats :=
                         some { s with NumberOfTestRan := s.NumberOfTestRan + 1 } }).2 with
          | some err =>
            rw [hh] at h2
            refine ⟨_, h2, rfl, by simp, by simp, by simp, fun hinv => by simp; omega,
              fun hn => by simp [he] at hn, ?_⟩
            intro name1 args1 hargs1 _ _
            obtain ⟨rfl, rfl⟩ := List.cons.inj hargs1
            refine ⟨fun err1 hh1 => ⟨hfail name args err1 hargs hcmd hi hh1, rfl⟩, fun hh1 => ?_⟩
            rw [hh] at hh1
            cases hh1
          | none =>
            rw [hh] at h2
            refine ⟨_, h2, rfl, by simp, by simp, by simp, fun hinv => by simp; omega,
              fun hn => by simp [he] at hn, ?_⟩
            intro name1 args1 hargs1 _ _
            obtain ⟨rfl, rfl⟩ := List.cons.inj hargs1
            refine ⟨fun err1 hh1 => ?_, fun _ => rfl⟩
            rw [hh] at hh1
            cases hh1
    · have he1 : isEphemeral E.ToUpper command = false := by simpa using he
      refine ⟨s, ?_, rfl, le_refl _, le_refl _, le_refl _, id, fun _ => rfl, ?_⟩
      · rw [hne he1]
        exact hs
      · intro name args hargs hcmd _
        simp [isEphemeral, hargs, hcmd] at he1
  · intro b total cmds k hs
    obtain ⟨s', hs', _, _, _, hinv⟩ := dispatchAll_stats E hE (cmds.take k) 0 b _ hs
    exact ⟨s', hs', hinv rfl⟩
theorem sampleEngine_preservesStats : PreservesStats sampleEngine := by
  refine ⟨fun cmd args heredoc b => ?_, fun b => rfl⟩
  simp only [sampleEngine]
  split <;> rfl

/-- Witness for C9: the run of `failingMerged`, whose probe fails. -/
theorem dispatch_statistics_accounting_witness :
    PreservesStats sampleEngine ∧
    ∃ s, (dispatchAll sampleEngine 0 (failingMerged.take 2) (sampleBuilder 1)).1.dockerfileTestStats
        = some s ∧
      s.NumberOfTestPassed + s.NumberOfTestFailed = s.NumberOfTestRan :=
  ⟨sampleEngine_preservesStats,
    (dispatch_statistics_accounting sampleEngine sampleEngine_preservesStats).2
      (sampleBuilder 1) 1 failingMerged 2 rfl⟩

/-! ## Counting the probes of a merged stream -/

theorem foldl_add_eq_sum {α : Type} (f : α → Nat) (l : List α) (a : Nat) :
    l.foldl (fun acc x => acc + f x) a = a + (l.map f).sum := by
  induction l generalizing a with
  | nil => simp
  | cons x rest ih => simp [ih, Nat.add_assoc]

theorem GetTotalNumberOfTests_eq_sum (tests : DockerfileTests) :
    GetTotalNumberOfTests tests = (tests.testBlocks.map (fun tb => tb.Asserts.length)).sum := by
  simp [GetTotalNumberOfTests, foldl_add_eq_sum]

theorem sum_ite_const {α : Type} (q : α → Bool) (n : Nat) (l : List α) :
    (l.map (fun a => if q a = true then n else 0)).sum = n * l.countP q := by
  induction l with
  | nil => simp
  | cons a rest ih =>
    by_cases hq : q a = true
    · simp [hq, ih, Nat.mul_add, Nat.add_comm]
    · simp [hq, ih]

/-- The probes spliced at `position` over the whole main stream are at most
those of the blocks at `position`, when each such block matches at most one
directive. -/
theorem sum_probesOf_le (ref : Command → String) (position : String) (cmds : List Command)
    (tbs : List TestBlock)
    (honce : ∀ tb ∈ tbs, tb.Position = position →
      (cmds.filter (fun cmd => HasPrefix (ref cmd) tb.DockerfileRef)).length ≤ 1) :
    (cmds.map (fun cmd => (probesOf (tbs.find? (fun tb =>
        HasPrefix (ref cmd) tb.DockerfileRef && decide (tb.Position = position)))).length)).sum
      ≤ (tbs.map (fun tb => if tb.Position = position then tb.Ephemerals.length else 0)).sum := by
  induction tbs with
  | nil => simp [probesOf]
  | cons tb rest ih =>
    have hrest := ih (fun t ht => honce t (List.mem_cons_of_mem _ ht))
    have hpoint : ∀ cmd ∈ cmds,
        (probesOf ((tb :: rest).find? (fun t =>
          HasPrefix (ref cmd) t.DockerfileRef && decide (t.Position = position)))).length
        ≤ (if (HasPrefix (ref cmd) tb.DockerfileRef && decide (tb.Position = position)) = true
            then tb.Ephemerals.length else 0)
          + (probesOf (rest.find? (fun t =>
              HasPrefix (ref cmd) t.DockerfileRef && decide (t.Position = position)))).length := by
      intro cmd _
      by_cases hp : (HasPrefix (ref cmd) tb.DockerfileRef && decide (tb.Position = position)) = true
      · rw [List.find?_cons, if_pos hp]
        simp only [hp]
        simp [probesOf]
      · rw [List.find?_cons, if_neg hp]
        have hp1 : (HasPrefix (ref cmd) tb.DockerfileRef
            && decide (tb.Position = position)) = false := by simpa using hp
        simp only [hp1]
        simp
    have hsum := List.sum_le_sum hpoint
    rw [List.sum_map_add] at hsum
    have hhead : (cmds.map (fun cmd =>
        if (HasPrefix (ref cmd) tb.DockerfileRef && decide (tb.Position = position)) = true
          then tb.Ephemerals.length else 0)).sum
        ≤ (if tb.Position = position then tb.Ephemerals.length else 0) := by
      rw [sum_ite_const (fun cmd =>
        HasPrefix (ref cmd) tb.DockerfileRef && decide (tb.Position = position))]
      by_cases hpos : tb.Position = position
      · have h1 := honce tb (List.mem_cons_self _ _) hpos
        rw [← List.countP_eq_length_filter] at h1
        simp only [hpos, decide_True, Bool.and_true, if_true]
        calc tb.Ephemerals.length * cmds.countP (fun cmd => HasPrefix (ref cmd) tb.DockerfileRef)
            ≤ tb.Ephemerals.length * 1 := Nat.mul_le_mul_left _ h1
          _ = tb.Ephemerals.length := Nat.mul_one _
      · simp [hpos]
    simp only [List.map_cons, List.sum_cons]
    omega
/-- The loop of `newTester` keeps one compiled probe per assertion in every
block. -/
theorem newTesterLoop_probes (toUpper : String → String) (cmds : List Command) (i : Nat)
    (testBlocks : List TestBlock) (current : TestBlock)
    (outBlocks : List TestBlock) (outCurrent : TestBlock)
    (hblocks : ∀ tb ∈ testBlocks, tb.Ephemerals.length = tb.Asserts.length)
    (hcurrent : current.Ephemerals.length = current.Asserts.length)
    (h : newTesterLoop toUpper i cmds testBlocks current = .ok (outBlocks, outCurrent)) :
    (∀ tb ∈ outBlocks, tb.Ephemerals.length = tb.Asserts.length) ∧
      outCurrent.Ephemerals.length = outCurrent.Asserts.length := by
  induction cmds generalizing i testBlocks current with
  | nil =>
    simp only [newTesterLoop, Except.ok.injEq, Prod.mk.injEq] at h
    obtain ⟨rfl, rfl⟩ := h
    exact ⟨hblocks, hcurrent⟩
  | cons fullcmd rest ih =>
    rw [newTesterLoop] at h
    split at h
    · cases h
    · rename_i name args hargs
      simp only [] at h
      split at h
      · cases h
      · split at h
        · refine ih _ _ _ ?_ ?_ h
          · intro tb htb
            split at htb
            · rcases List.mem_append.mp htb with hm | hm
              · exact hblocks tb hm
              · rw [List.mem_singleton.mp hm]; exact hcurrent
            · exact hblocks tb htb
          · split <;> rfl
        · split at h
          · cases h
          · refine ih _ _ _ hblocks ?_ h
            simp [hcurrent]

/-- Every block of a specification built by `newTester` has one compiled probe
per assertion. -/
theorem newTester_probes (toUpper : String → String) (script : List Command)
    (tests : DockerfileTests) (h : newTester toUpper script = .ok tests) :
    ∀ tb ∈ tests.testBlocks, tb.Ephemerals.length = tb.Asserts.length := by
  unfold newTester at h
  split at h
  · cases h
  · split at h
    · cases h
    · rename_i testBlocks current hloop
      injection h with h
      subst h
      obtain ⟨h1, h2⟩ := newTesterLoop_probes toUpper script 0 [] _ testBlocks current
        (by simp) rfl hloop
      intro tb htb
      rcases List.mem_append.mp htb with hm | hm
      · exact h1 tb hm
      · rw [List.mem_singleton.mp hm]; exact h2

/-- The ephemeral directives of a weave are at most the compiled probes of the
`@BEFORE` and `@AFTER` blocks, when the main stream has no ephemeral directive
and each such block matches at most one directive. -/
theorem countP_weave_le (toUpper : String → String) (cmds : List Command)
    (tests : DockerfileTests)
    (hmain : ∀ cmd ∈ cmds, isEphemeral toUpper cmd = false)
    (honce : ∀ tb ∈ tests.testBlocks,
      tb.Position = commands.Before ∨ tb.Position = commands.After →
      (cmds.filter (fun cmd =>
        HasPrefix (toDockerfileRef toUpper cmd) tb.DockerfileRef)).length ≤ 1) :
    (weave toUpper tests cmds).countP (isEphemeral toUpper)
      ≤ (tests.testBlocks.map (fun tb => tb.Ephemerals.length)).sum := by
  have hpoint : ∀ cmd ∈ cmds,
      (List.countP (isEphemeral toUpper) ∘ spliceAround toUpper tests) cmd
        ≤ (probesOf (tests.testBlocks.find? (fun tb =>
              HasPrefix (toDockerfileRef toUpper cmd) tb.DockerfileRef
                && decide (tb.Position = commands.Before)))).length
          + (probesOf (tests.testBlocks.find? (fun tb =>
              HasPrefix (toDockerfileRef toUpper cmd) tb.DockerfileRef
                && decide (tb.Position = commands.After)))).length := by
    intro cmd hcmd
    simp only [Function.comp, spliceAround, blockFor, List.countP_append, toDockerfileRef]
    have h0 : List.countP (isEphemeral toUpper) [cmd] = 0 := by
      simp [List.countP_cons, hmain cmd hcmd]
    have h1 := List.countP_le_length (isEphemeral toUpper)
      (l := probesOf (tests.testBlocks.find? (fun tb =>
        HasPrefix (toUpper (Join cmd.Args "_")) tb.DockerfileRef
          && decide (tb.Position = commands.Before))))
    have h2 := List.countP_le_length (isEphemeral toUpper)
      (l := probesOf (tests.testBlocks.find? (fun tb =>
        HasPrefix (toUpper (Join cmd.Args "_")) tb.DockerfileRef
          && decide (tb.Position = commands.After))))
    omega
  have hsum := List.sum_le_sum hpoint
  rw [List.sum_map_add] at hsum
  have hb := sum_probesOf_le (toDockerfileRef toUpper) commands.Before cmds tests.testBlocks
    (fun tb htb hpos => honce tb htb (Or.inl hpos))
  have ha := sum_probesOf_le (toDockerfileRef toUpper) commands.After cmds tests.testBlocks
    (fun tb htb hpos => honce tb htb (Or.inr hpos))
  have hboth : (tests.testBlocks.map (fun tb =>
        if tb.Position = commands.Before then tb.Ephemerals.length else 0)).sum
      + (tests.testBlocks.map (fun tb =>
        if tb.Position = commands.After then tb.Ephemerals.length else 0)).sum
      ≤ (tests.testBlocks.map (fun tb => tb.Ephemerals.length)).sum := by
    rw [← List.sum_map_add]
    apply List.sum_le_sum
    intro tb _
    by_cases hB : tb.Position = commands.Before
    · have hA : tb.Position ≠ commands.After := fun h => before_ne_after (hB.symm.trans h)
      simp [hB, before_ne_after]
    · by_cases hA : tb.Position = commands.After
      · simp [hA, Ne.symm before_ne_after]
      · simp [hB, hA]
  rw [weave, List.countP_flatMap]
  omega

/-- C8, a counterexample to it as stated: weaving `repeatedTests` (built by
`newTester` from a script with one assertion) into `sampleMain` succeeds, the
one `@AFTER RUN` block matches both `RUN` directives, so the merged stream
holds two ephemeral probes while TotalDeclared is 1, and a run in which every
handler succeeds ends with Ran = 2 > 1 = TotalDeclared. -/
theorem statistics_bound_fails_for_repeated_block :
    newTester asciiToUpper repeatedScript = .ok repeatedTests ∧
    Inject asciiToUpper sampleMain repeatedTests = .ok repeatedMerged ∧
    GetTotalNumberOfTests repeatedTests = 1 ∧
    repeatedMerged.countP (isEphemeral asciiToUpper) = 2 ∧
    (dispatchAll sampleEngine 0 repeatedMerged
        (sampleBuilder (GetTotalNumberOfTests repeatedTests))).1.dockerfileTestStats
      = some { TotalNumberOfTests := 1, NumberOfTestRan := 2, NumberOfTestPassed := 2,
               NumberOfTestFailed := 0 } := by
  decide

/-- C8, amended: when weaving succeeds, the main stream holds no ephemeral
directive, every block has one compiled probe per assertion (as `newTester`
builds them) and the target of every `@BEFORE` or `@AFTER` block is a prefix
of the signature of at most one directive of the main stream, then the
number of ephemeral probes in the merged stream is at most TotalDeclared
(`GetTotalNumberOfTests` of the specification), and, with handlers and
`commit` that leave the statistics alone, `Ran <= TotalDeclared` holds before
the first directive and after every directive of the loop of `Run`, Ran
growing by at most one per ephemeral directive dispatched. -/
theorem statistics_bound {W : Type} (E : Engine W) (hE : PreservesStats E)
    (cmds : List Command) (tests : DockerfileTests) (merged : List Command) (b : Builder W)
    (hweave : Inject E.ToUpper cmds tests = .ok merged)
    (hmain : ∀ cmd ∈ cmds, isEphemeral E.ToUpper cmd = false)
    (hprobes : ∀ tb ∈ tests.testBlocks, tb.Ephemerals.length = tb.Asserts.length)
    (honce : ∀ tb ∈ tests.testBlocks,
      tb.Position = commands.Before ∨ tb.Position = commands.After →
      (cmds.filter (fun cmd =>
        HasPrefix (toDockerfileRef E.ToUpper cmd) tb.DockerfileRef)).length ≤ 1)
    (hstats : b.dockerfileTestStats = some
      { TotalNumberOfTests := GetTotalNumberOfTests tests, NumberOfTestRan := 0,
        NumberOfTestPassed := 0, NumberOfTestFailed := 0 }) :
    merged.countP (isEphemeral E.ToUpper) ≤ GetTotalNumberOfTests tests ∧
    ∀ k, ∃ s, (dispatchAll E 0 (merged.take k) b).1.dockerfileTestStats = some s ∧
      s.TotalNumberOfTests = GetTotalNumberOfTests tests ∧
      s.NumberOfTestRan ≤ (merged.take k).countP (isEphemeral E.ToUpper) ∧
      s.NumberOfTestRan ≤ s.TotalNumberOfTests := by
  obtain ⟨_, _, hout⟩ := Inject_ok_inv E.ToUpper cmds tests merged hweave
  have hcount : merged.countP (isEphemeral E.ToUpper) ≤ GetTotalNumberOfTests tests := by
    rw [hout, GetTotalNumberOfTests_eq_sum]
    have hle := countP_weave_le E.ToUpper cmds tests hmain honce
    have heq : (tests.testBlocks.map (fun tb => tb.Ephemerals.length))
        = (tests.testBlocks.map (fun tb => tb.Asserts.length)) :=
      List.map_congr_left hprobes
    rw [heq] at hle
    exact hle
  refine ⟨hcount, fun k => ?_⟩
  obtain ⟨s, hs, htotal, _, hran, _⟩ := dispatchAll_stats E hE (merged.take k) 0 b _ hstats
  have htake := List.Sublist.countP_le (isEphemeral E.ToUpper) (List.take_sublist k merged)
  simp only at htotal hran
  exact ⟨s, hs, htotal, by omega, by omega⟩

/-- Witness for the amended C8: the run of the weave of `sampleTests` into
`sampleMain`, where each block matches one directive. -/
theorem statistics_bound_witness :
    Inject asciiToUpper sampleMain sampleTests = .ok sampleMerged ∧
    sampleMerged.countP (isEphemeral asciiToUpper) ≤ GetTotalNumberOfTests sampleTests ∧
    ∃ s, (dispatchAll sampleEngine 0 (sampleMerged.take 5)
        (sampleBuilder (GetTotalNumberOfTests sampleTests))).1.dockerfileTestStats = some s ∧
      s.TotalNumberOfTests = GetTotalNumberOfTests sampleTests ∧
      s.NumberOfTestRan ≤ (sampleMerged.take 5).countP (isEphemeral asciiToUpper) ∧
      s.NumberOfTestRan ≤ s.TotalNumberOfTests :=
  have h := statistics_bound sampleEngine sampleEngine_preservesStats sampleMain sampleTests
    sampleMerged (sampleBuilder (GetTotalNumberOfTests sampleTests))
    (by decide) (by decide) (newTester_probes asciiToUpper sampleScript sampleTests (by decide))
    (by decide) rfl
  ⟨by decide, h.1, h.2 5⟩
/-! ## Claims on single assertions and on the end-to-end scenario -/

/-- C11: for every path `p`, `Assert2Ephemeral` on `[ASSERT_TRUE, FILE_EXISTS,
p]` yields the probe `bash -c` of the shell command `test -f p`, and on
`[ASSERT_FALSE, FILE_EXISTS, p]` the probe of `test ! -f p`, whatever else the
record carries; for `p = /etc/passwd` these are `test -f /etc/passwd` and
`test ! -f /etc/passwd`. -/
theorem Assert2Ephemeral_FILE_EXISTS (p heredoc : String) :
    Assert2Ephemeral { Args := ["ASSERT_TRUE", "FILE_EXISTS", p], Heredoc := heredoc }
      = .ok { Args := ["EPHEMERAL", "bash", "-c", "test -f " ++ p] } ∧
    Assert2Ephemeral { Args := ["ASSERT_FALSE", "FILE_EXISTS", p], Heredoc := heredoc }
      = .ok { Args := ["EPHEMERAL", "bash", "-c", "test ! -f " ++ p] } ∧
    Assert2Ephemeral { Args := ["ASSERT_TRUE", "FILE_EXISTS", "/etc/passwd"] }
      = .ok { Args := ["EPHEMERAL", "bash", "-c", "test -f /etc/passwd"] } ∧
    Assert2Ephemeral { Args := ["ASSERT_FALSE", "FILE_EXISTS", "/etc/passwd"] }
      = .ok { Args := ["EPHEMERAL", "bash", "-c", "test ! -f /etc/passwd"] } := by
  have h1 : "test " ++ ("-f " ++ p) = "test -f " ++ p := by
    rw [← String.append_assoc]; rfl
  have h2 : "test ! " ++ ("-f " ++ p) = "test ! -f " ++ p := by
    rw [← String.append_assoc]; rfl
  refine ⟨?_, ?_, by decide, by decide⟩
  · simp [Assert2Ephemeral, commands.AssertTrue, commands.AssertFalse, h1]
  · simp [Assert2Ephemeral, commands.AssertTrue, commands.AssertFalse, h2]

/-- C13, a counterexample to it as stated: the probe woven for the end-to-end
scenario is not the one whose shell command is `command -v "curl" 1>/dev/null
2>&1` with a single blank before `1>`; `isInstalledGeneric` writes two. -/
theorem endToEnd_probe_differs :
    (newTester asciiToUpper endToEndScript).bind (Inject asciiToUpper endToEndMain) ≠ .ok
      [{ Args := ["FROM", "alpine"] },
       { Args := ["RUN", "apk", "add", "--no-cache", "curl"] },
       { Args := ["EPHEMERAL", "bash", "-c", "command -v \"curl\" 1>/dev/null 2>&1"] }] := by
  decide

/-- C13, amended: for the main stream `[FROM alpine, RUN apk add --no-cache
curl]` and the test script `[@AFTER RUN_APK_ADD, ASSERT_TRUE IS_INSTALLED
curl]`, `newTester` and `Inject` succeed, the merged stream is the `FROM`
directive, the `RUN` directive and one ephemeral probe, `bash -c` of the shell
command `command -v "curl"  1>/dev/null 2>&1` (two blanks before `1>`), and
TotalDeclared is 1. -/
theorem endToEnd_weave :
    newTester asciiToUpper endToEndScript = .ok endToEndTests ∧
    Inject asciiToUpper endToEndMain endToEndTests = .ok
      [{ Args := ["FROM", "alpine"] },
       { Args := ["RUN", "apk", "add", "--no-cache", "curl"] },
       { Args := ["EPHEMERAL", "bash", "-c", "command -v \"curl\"  1>/dev/null 2>&1"] }] ∧
    GetTotalNumberOfTests endToEndTests = 1 := by
  decide

/-! ## Claim on the post-build step -/

/-- Without a test specification `dispatchPostBuildTests` dereferences the nil
pointer, whatever the engine. -/
theorem dispatchPostBuildTests_nil {W : Type} (X : RunEngine W) (b : Builder W)
    (h : b.dockerfileTests = none) :
    dispatchPostBuildTests X b = (b, some .panicNil) := by
  simp [dispatchPostBuildTests, h]

/-- C15 (the code departs from the claim): for `sampleMain` without a test
script, the builder starts with no test specification and no statistics, every
directive is dispatched without error, and `Run` still does not return
success: `dispatchPostBuildTests` reads `b.dockerfileTests.testBlocks` on the
nil pointer and the build ends in a nil pointer dereference. -/
theorem Run_without_tests_panics :
    freshBuilder.dockerfileTests = none ∧ freshBuilder.dockerfileTestStats = none ∧
    (dispatchAll sampleRunEngine.toEngine 0 sampleMain freshBuilder).2 = none ∧
    (dispatchPostBuildTests sampleRunEngine
      (dispatchAll sampleRunEngine.toEngine 0 sampleMain freshBuilder).1).2 = some .panicNil ∧
    (Run sampleRunEngine sampleMain none freshBuilder).2 = some .panicNil := by
  decide
/-! ## The position check of `dispatch` -/

theorem dispatchCleanup_ne_fromNotFirst {W : Type} (E : Engine W) (b : Builder W) :
    (dispatchCleanup E b).2 ≠ some .fromNotFirst := by
  unfold dispatchCleanup
  split
  · split <;> simp
  · simp

theorem dispatchCommit_ne_fromNotFirst {W : Type} (E : Engine W) (cmd : String)
    (b : Builder W) : (dispatchCommit E cmd b).2 ≠ some .fromNotFirst := by
  unfold dispatchCommit
  split
  · split
    · simp
    · exact dispatchCleanup_ne_fromNotFirst E _
  · exact dispatchCleanup_ne_fromNotFirst E _

theorem dispatchHandle_ne_fromNotFirst {W : Type} (E : Engine W) (cmd : String)
    (args : List String) (heredoc : String) (b : Builder W) :
    (dispatchHandle E cmd args heredoc b).2 ≠ some .fromNotFirst := by
  unfold dispatchHandle
  split
  · split
    · split <;> simp
    · simp
  · split
    · split
      · simp
      · exact dispatchCommit_ne_fromNotFirst E _ _
    · exact dispatchCommit_ne_fromNotFirst E _ _

/-- When the position check fails `dispatch` returns the ordering error and
the builder as it was. -/
theorem dispatch_of_misplaced {W : Type} (E : Engine W) (i : Nat) (command : Command)
    (b : Builder W) (name : String) (args : List String) (hargs : command.Args = name :: args)
    (h : ((i == 0) != (E.ToUpper name == commands.From)) = true) :
    dispatch E i command b = (b, some .fromNotFirst) := by
  unfold dispatch
  simp only [hargs]
  rw [if_pos h]

/-- When the position check passes `dispatch` does not return the ordering
error. -/
theorem dispatch_of_placed {W : Type} (E : Engine W) (i : Nat) (command : Command)
    (b : Builder W) (name : String) (args : List String) (hargs : command.Args = name :: args)
    (h : ¬ ((i == 0) != (E.ToUpper name == commands.From)) = true) :
    (dispatch E i command b).2 ≠ some .fromNotFirst := by
  unfold dispatch
  simp only [hargs]
  rw [if_neg h]
  split
  · simp
  · split
    · simp
    · split
      · exact dispatchHandle_ne_fromNotFirst E _ _ _ _
      · split
        · simp
        · exact dispatchHandle_ne_fromNotFirst E _ _ _ _

theorem misplaced_eq (toUpper : String → String) (i : Nat) (command : Command) (name : String)
    (args : List String) (hargs : command.Args = name :: args) :
    misplaced toUpper i command = ((i == 0) != (toUpper name == commands.From)) := by
  simp [misplaced, isFrom, hargs]

/-- A directive dispatched without error is well placed. -/
theorem placed_of_dispatch_ok {W : Type} (E : Engine W) (i : Nat) (command : Command)
    (b : Builder W) (h : (dispatch E i command b).2 = none) :
    misplaced E.ToUpper i command = false := by
  cases hargs : command.Args with
  | nil =>
    unfold dispatch at h
    simp [hargs] at h
  | cons name args =>
    rw [misplaced_eq E.ToUpper i command name args hargs]
    by_contra hne
    have hm : ((i == 0) != (E.ToUpper name == commands.From)) = true := by simpa using hne
    rw [dispatch_of_misplaced E i command b name args hargs hm] at h
    simp at h

/-- The loop of `Run` over a stream cut in two. -/
theorem dispatchAll_append {W : Type} (E : Engine W) (pre post : List Command) (i : Nat)
    (b : Builder W) :
    dispatchAll E i (pre ++ post) b =
      match dispatchAll E i pre b with
      | (b1, some err) => (b1, some err)
      | (b1, none) => dispatchAll E (i + pre.length) post b1 := by
  induction pre generalizing i b with
  | nil =>
    simp [dispatchAll]
  | cons c rest ih =>
    simp only [List.cons_append, dispatchAll, List.length_cons]
    cases hd : dispatch E i c b with
    | mk b1 res =>
      cases res with
      | some err => simp
      | none =>
        have hlen : i + 1 + rest.length = i + (rest.length + 1) := by omega
        have hih := ih (i + 1) b1
        rw [hlen] at hih
        exact hih

/-- A stream dispatched to its end without error has every directive well
placed. -/
theorem placed_of_dispatchAll_ok {W : Type} (E : Engine W) (stream : List Command) (i : Nat)
    (b : Builder W) (h : (dispatchAll E i stream b).2 = none) :
    ∀ j c, stream[j]? = some c → misplaced E.ToUpper (i + j) c = false := by
  induction stream generalizing i b with
  | nil => intro j c hj; simp at hj
  | cons d rest ih =>
    intro j c hj
    unfold dispatchAll at h
    cases hd : dispatch E i d b with
    | mk b1 res =>
      rw [hd] at h
      cases res with
      | some err => simp at h
      | none =>
        simp only [] at h
        cases j with
        | zero =>
          simp only [List.getElem?_cons_zero, Option.some.injEq] at hj
          subst hj
          exact placed_of_dispatch_ok E i d b (by rw [hd])
        | succ k =>
          simp only [List.getElem?_cons_succ] at hj
          have := ih (i + 1) b1 h k c hj
          have hidx : i + (k + 1) = i + 1 + k := by omega
          rw [hidx]
          exact this
/-! ## Claim on the position check -/

/-- C12, a counterexample to it as stated: in `preemptedStream` a second `FROM`
stands at position 2, so the base-image directive is not only at position 0,
and the build does not fail with the ordering error: the probe at position 1
fails first and the loop of `Run` returns that error. -/
theorem ordering_error_preempted :
    ¬ fromOnlyFirst asciiToUpper preemptedStream ∧
    (dispatchAll sampleEngine 0 preemptedStream (sampleBuilder 1)).2
      = some (.external "exit status 2") ∧
    (dispatchAll sampleEngine 0 preemptedStream (sampleBuilder 1)).2
      ≠ some .fromNotFirst := by
  refine ⟨fun h => ?_, by decide, by decide⟩
  have h2 := (h 2 { Args := ["FROM", "scratch"] } rfl).mp (by decide)
  exact absurd h2 (by decide)

/-- C12, amended: (1) `dispatch` of a directive at index `i` returns the
ordering error exactly when `i == 0` differs from `uppercased name == FROM`,
and then it returns the builder unchanged, whatever the handlers, the
variable substitution and the engine are (none of them is consulted);
(2) for every merged stream, either `FROM` is at position 0 and at no other
position, or the build fails; (3) it fails with the ordering error at the
first misplaced directive whenever the directives before it were dispatched
without error, the builder being as they left it. -/
theorem dispatch_position_check {W : Type} (E : Engine W) :
    (∀ (i : Nat) (command : Command) (b : Builder W) (name : String) (args : List String),
      command.Args = name :: args →
      ((dispatch E i command b).2 = some .fromNotFirst ↔
        ((i == 0) != (E.ToUpper name == commands.From)) = true) ∧
      (((i == 0) != (E.ToUpper name == commands.From)) = true →
        dispatch E i command b = (b, some .fromNotFirst))) ∧
    (∀ (stream : List Command) (b : Builder W),
      fromOnlyFirst E.ToUpper stream ∨ ∃ err, (dispatchAll E 0 stream b).2 = some err) ∧
    (∀ (pre : List Command) (c : Command) (post : List Command) (b : Builder W),
      c.Args ≠ [] → (dispatchAll E 0 pre b).2 = none →
      misplaced E.ToUpper pre.length c = true →
      dispatchAll E 0 (pre ++ c :: post) b
        = ((dispatchAll E 0 pre b).1, some .fromNotFirst)) := by
  refine ⟨?_, ?_, ?_⟩
  · intro i command b name args hargs
    refine ⟨⟨fun h => ?_, fun h => ?_⟩, dispatch_of_misplaced E i command b name args hargs⟩
    · by_contra hne
      exact dispatch_of_placed E i command b name args hargs hne h
    · rw [dispatch_of_misplaced E i command b name args hargs h]
  · intro stream b
    cases hres : (dispatchAll E 0 stream b).2 with
    | some err => exact Or.inr ⟨err, rfl⟩
    | none =>
      left
      intro j c hj
      have hp := placed_of_dispatchAll_ok E stream 0 b hres j c hj
      simp only [misplaced, Nat.zero_add] at hp
      by_cases h0 : j = 0
      · subst h0
        simp at hp
        simp [hp]
      · have hj0 : (j == 0) = false := by simpa using h0
        rw [hj0] at hp
        simp at hp
        simp [hp, h0]
  · intro pre c post b hargs hpre hmis
    rw [dispatchAll_append]
    cases hd : dispatchAll E 0 pre b with
    | mk b1 res =>
      rw [hd] at hpre
      simp only at hpre
      subst hpre
      simp only [Nat.zero_add, dispatchAll]
      cases hc : c.Args with
      | nil => exact absurd hc hargs
      | cons name args =>
        rw [misplaced_eq E.ToUpper pre.length c name args hc] at hmis
        rw [dispatch_of_misplaced E pre.length c b1 name args hc hmis]

/-- Witness for the amended C12: a second `FROM` dispatched at index 2. -/
theorem dispatch_position_check_witness :
    ((2 == 0) != (sampleEngine.ToUpper "FROM" == commands.From)) = true ∧
    dispatch sampleEngine 2 { Args := ["FROM", "scratch"] } (sampleBuilder 1)
      = (sampleBuilder 1, some .fromNotFirst) :=
  ⟨by decide,
    ((dispatch_position_check sampleEngine).1 2 { Args := ["FROM", "scratch"] }
      (sampleBuilder 1) "FROM" ["scratch"] rfl).2 (by decide)⟩
/-! ## Ephemeral directives and the dirty flag -/

theorem dispatchCleanup_flags {W : Type} (E : Engine W) (b : Builder W) :
    (dispatchCleanup E b).1.uncommitted = b.uncommitted ∧
      (dispatchCleanup E b).1.uncommittedCommands = b.uncommittedCommands := by
  unfold dispatchCleanup
  split
  · split <;> exact ⟨rfl, rfl⟩
  · exact ⟨rfl, rfl⟩

/-- For an ephemeral directive the commit step of `dispatch` is only the
cleanup: `EPHEMERAL` is not a filesystem-modifying directive. -/
theorem dispatchCommit_ephemeral {W : Type} (E : Engine W) (b : Builder W) :
    dispatchCommit E commands.Ephemeral b = dispatchCleanup E b := by
  have hmem : commands.Ephemeral ∉ commands.FilesystemModifierCommands := by decide
  simp [dispatchCommit, hmem]

/-- What `dispatch` does with the result of the handler of an ephemeral
directive, written without `commit`. -/
theorem dispatchHandle_ephemeral {W : Type} (E : Engine W) (args : List String)
    (heredoc : String) (b : Builder W) :
    dispatchHandle E commands.Ephemeral args heredoc b =
      match E.handler commands.Ephemeral args heredoc b with
      | (b1, some err) =>
        match updateStats
            (fun s => { s with NumberOfTestFailed := s.NumberOfTestFailed + 1 }) b1 with
        | none => (b1, some .panicNil)
        | some b2 => (b2, some (.external err))
      | (b1, none) =>
        match updateStats
            (fun s => { s with NumberOfTestPassed := s.NumberOfTestPassed + 1 }) b1 with
        | none => (b1, some .panicNil)
        | some b2 => dispatchCleanup E b2 := by
  unfold dispatchHandle
  simp only [if_true, dispatchCommit_ephemeral]

theorem updateStats_flags {W : Type} (f : TestStats → TestStats) (b b2 : Builder W)
    (h : updateStats f b = some b2) :
    b2.uncommitted = b.uncommitted ∧ b2.uncommittedCommands = b.uncommittedCommands := by
  unfold updateStats at h
  split at h
  · cases h
  · injection h with h
    subst h
    exact ⟨rfl, rfl⟩

/-- After the handler of an ephemeral directive `dispatch` leaves the dirty
flag and the cumulative command sequence as the handler left them. -/
theorem dispatchHandle_ephemeral_flags {W : Type} (E : Engine W) (args : List String)
    (heredoc : String) (b : Builder W) :
    (dispatchHandle E commands.Ephemeral args heredoc b).1.uncommitted
        = (E.handler commands.Ephemeral args heredoc b).1.uncommitted ∧
      (dispatchHandle E commands.Ephemeral args heredoc b).1.uncommittedCommands
        = (E.handler commands.Ephemeral args heredoc b).1.uncommittedCommands := by
  rw [dispatchHandle_ephemeral]
  cases hh : E.handler commands.Ephemeral args heredoc b with
  | mk b1 res =>
    cases res with
    | some err =>
      simp only []
      cases hu : updateStats
          (fun s => { s with NumberOfTestFailed := s.NumberOfTestFailed + 1 }) b1 with
      | none => exact ⟨rfl, rfl⟩
      | some b2 => exact updateStats_flags _ b1 b2 hu
    | none =>
      simp only []
      cases hu : updateStats
          (fun s => { s with NumberOfTestPassed := s.NumberOfTestPassed + 1 }) b1 with
      | none => exact ⟨rfl, rfl⟩
      | some b2 =>
        simp only []
        have h1 := dispatchCleanup_flags E b2
        have h2 := updateStats_flags _ b1 b2 hu
        exact ⟨h1.1.trans h2.1, h1.2.trans h2.2⟩

/-- An ephemeral directive after step 0 with a nil statistics pointer: the
flag is cleared and the increment of Ran dereferences the nil pointer. -/
theorem dispatch_ephemeral_nil {W : Type} (E : Engine W) (i : Nat) (command : Command)
    (b : Builder W) (name : String) (args : List String)
    (hargs : command.Args = name :: args) (hcmd : E.ToUpper name = commands.Ephemeral)
    (hi : i ≠ 0) (hs : b.dockerfileTestStats = none) :
    dispatch E i command b = ({ b with uncommitted := false }, some .panicNil) := by
  unfold dispatch
  have hfrom : commands.Ephemeral ≠ commands.From := by decide
  have hmem : commands.Ephemeral ∈ handlerNames := by decide
  have henv : commands.Ephemeral ∉ commands.ReplaceEnvAllowed := by decide
  simp [hargs, hcmd, hfrom, hmem, henv, hi, updateStats, hs]
/-! ## Claim on probes and the build state -/

/-- C14: for every builder and every ephemeral directive (uppercased name
`EPHEMERAL`), the outcome of `dispatch` does not depend on `commit`, which it
never invokes; at step 0 and with a nil statistics pointer the handler is not
entered and the dirty flag is left as it was or cleared; otherwise the handler
is entered on a builder whose dirty flag `uncommitted` is false and whose
cumulative command sequence is the one `dispatch` received, and `dispatch`
returns the flag and the sequence exactly as the handler left them: it neither
sets the flag nor appends the directive. -/
theorem dispatch_ephemeral_no_persist {W : Type} (E : Engine W) (i : Nat) (command : Command)
    (b : Builder W) (name : String) (args : List String)
    (hargs : command.Args = name :: args) (hcmd : E.ToUpper name = commands.Ephemeral) :
    (∀ commit1 : Builder W → Builder W × Option String,
      dispatch { E with commit := commit1 } i command b = dispatch E i command b) ∧
    (i = 0 → dispatch E i command b = (b, some .fromNotFirst)) ∧
    (i ≠ 0 → b.dockerfileTestStats = none →
      dispatch E i command b = ({ b with uncommitted := false }, some .panicNil)) ∧
    (i ≠ 0 → ∀ s, b.dockerfileTestStats = some s →
      ∃ entry : Builder W,
        entry = { b with uncommitted := false,
                         dockerfileTestStats :=
                           some { s with NumberOfTestRan := s.NumberOfTestRan + 1 } } ∧
        entry.uncommitted = false ∧
        entry.uncommittedCommands = b.uncommittedCommands ∧
        dispatch E i command b
          = dispatchHandle E commands.Ephemeral args command.Heredoc entry ∧
        (dispatch E i command b).1.uncommitted
          = (E.handler commands.Ephemeral args command.Heredoc entry).1.uncommitted ∧
        (dispatch E i command b).1.uncommittedCommands
          = (E.handler commands.Ephemeral args command.Heredoc entry).1.uncommittedCommands) := by
  have hfrom : commands.Ephemeral ≠ commands.From := by decide
  have hfirst : ∀ (E1 : Engine W), E1.ToUpper name = commands.Ephemeral →
      dispatch E1 0 command b = (b, some .fromNotFirst) := by
    intro E1 h1
    exact dispatch_of_misplaced E1 0 command b name args hargs (by simp [h1, hfrom])
  refine ⟨fun commit1 => ?_, fun h0 => ?_, fun hi hs => ?_, fun hi s hs => ?_⟩
  · by_cases hi : i = 0
    · subst hi
      rw [hfirst E hcmd, hfirst { E with commit := commit1 } hcmd]
    · cases hs : b.dockerfileTestStats with
      | none =>
        rw [dispatch_ephemeral_nil E i command b name args hargs hcmd hi hs,
          dispatch_ephemeral_nil { E with commit := commit1 } i command b name args hargs hcmd
            hi hs]
      | some s =>
        rw [dispatch_ephemeral_later E i command b s name args hargs hcmd hi hs,
          dispatch_ephemeral_later { E with commit := commit1 } i command b s name args hargs
            hcmd hi hs,
          dispatchHandle_ephemeral, dispatchHandle_ephemeral]
        rfl
  · subst h0
    exact hfirst E hcmd
  · exact dispatch_ephemeral_nil E i command b name args hargs hcmd hi hs
  · refine ⟨_, rfl, rfl, rfl, ?_, ?_⟩
    · exact dispatch_ephemeral_later E i command b s name args hargs hcmd hi hs
    · rw [dispatch_ephemeral_later E i command b s name args hargs hcmd hi hs]
      exact dispatchHandle_ephemeral_flags E args command.Heredoc _

/-- Witness for C14: a probe dispatched at step 1 on `sampleEngine`; the
result is the same with a `commit` that always fails. -/
theorem dispatch_ephemeral_no_persist_witness :
    sampleEngine.ToUpper "EPHEMERAL" = commands.Ephemeral ∧
    dispatch { sampleEngine with commit := fun b => (b, some "no commit") } 1
        { Args := ["EPHEMERAL", "getent", "passwd", "root"] } (sampleBuilder 1)
      = dispatch sampleEngine 1 { Args := ["EPHEMERAL", "getent", "passwd", "root"] }
          (sampleBuilder 1) :=
  ⟨by decide,
    (dispatch_ephemeral_no_persist sampleEngine 1
      { Args := ["EPHEMERAL", "getent", "passwd", "root"] } (sampleBuilder 1) "EPHEMERAL"
      ["getent", "passwd", "root"] rfl (by decide)).1 _⟩

end DockerUnit
